import Mathlib

/-!
Verification development for the asset loading/caching layer of the
"Inside The Fridge" repository (`src/js/optimizedModelLoader.js` and the
`ModelLoader` in `src/js/objectDragControls_fixed.js`).

The JavaScript code runs on a single-threaded cooperative event loop.  We
embed it as a small-step transition system: every synchronous prefix of an
`async` function (the code between two suspension points) is one atomic
step, and the scheduler nondeterminism is a list of `Choice`s.  The mutable
per-loader tables (`modelCache`, `loadingPromises`, `loadedModels`) are
association lists in an explicit state record.  Promise identity matters
(two fetches of the same path after a failure are distinct promises), so
pending loads carry a numeric promise id, and the network is modelled by
`fire` events that settle an outstanding fetch exactly once.
-/

namespace Fridge

/-! ## Association-list primitives (the `Map` operations used by the code)

`alookup` is `Map.get`/`Map.has`, `aset` is `Map.set` (replace the entry in
place when the key is present, append otherwise, as a JS `Map` preserves
insertion order), `aerase` is `Map.delete`. -/

def alookup {κ α : Type} [DecidableEq κ] : List (κ × α) → κ → Option α
  | [], _ => none
  | (k, v) :: rest, q => if k = q then some v else alookup rest q

def aset {κ α : Type} [DecidableEq κ] : List (κ × α) → κ → α → List (κ × α)
  | [], k, v => [(k, v)]
  | (k0, v0) :: rest, k, v =>
      if k0 = k then (k, v) :: rest else (k0, v0) :: aset rest k v

def aerase {κ α : Type} [DecidableEq κ] (l : List (κ × α)) (k : κ) :
    List (κ × α) :=
  l.filter (fun e => decide (e.1 ≠ k))

def keysOf {κ α : Type} (l : List (κ × α)) : List κ := l.map (·.1)

theorem alookup_eq_none_iff {κ α : Type} [DecidableEq κ]
    (l : List (κ × α)) (k : κ) :
    alookup l k = none ↔ k ∉ keysOf l := by
  induction l with
  | nil => simp [alookup, keysOf]
  | cons e rest ih =>
      obtain ⟨k0, v0⟩ := e
      by_cases h : k0 = k
      · subst h
        simp [alookup, keysOf]
      · simp [alookup, keysOf, h, ih, Ne.symm h]

theorem alookup_isSome_of_mem {κ α : Type} [DecidableEq κ]
    {l : List (κ × α)} {k : κ} {v : α} (h : (k, v) ∈ l) :
    (alookup l k).isSome := by
  induction l with
  | nil => simp at h
  | cons e rest ih =>
      obtain ⟨k0, v0⟩ := e
      rcases List.mem_cons.mp h with h1 | h2
      · cases h1
        simp [alookup]
      · by_cases hk : k0 = k
        · simp [alookup, hk]
        · simpa [alookup, hk] using ih h2

theorem alookup_aset_self {κ α : Type} [DecidableEq κ]
    (l : List (κ × α)) (k : κ) (v : α) :
    alookup (aset l k v) k = some v := by
  induction l with
  | nil => simp [aset, alookup]
  | cons e rest ih =>
      obtain ⟨k0, v0⟩ := e
      by_cases hk : k0 = k
      · simp [aset, hk, alookup]
      · simp [aset, hk, alookup, ih]

theorem alookup_aset_ne {κ α : Type} [DecidableEq κ]
    (l : List (κ × α)) (k q : κ) (v : α) (hne : q ≠ k) :
    alookup (aset l k v) q = alookup l q := by
  induction l with
  | nil => simp [aset, alookup, Ne.symm hne]
  | cons e rest ih =>
      obtain ⟨k0, v0⟩ := e
      by_cases hk : k0 = k
      · subst hk
        simp [aset, alookup, Ne.symm hne]
      · by_cases hq : k0 = q
        · simp [aset, hk, alookup, hq, hne]
        · simp [aset, hk, alookup, hq, ih]

theorem alookup_aerase_self {κ α : Type} [DecidableEq κ]
    (l : List (κ × α)) (k : κ) :
    alookup (aerase l k) k = none := by
  induction l with
  | nil => simp [aerase, alookup]
  | cons e rest ih =>
      obtain ⟨k0, v0⟩ := e
      by_cases hk : k0 = k
      · simpa [aerase, List.filter_cons, hk] using ih
      · simpa [aerase, List.filter_cons, hk, alookup, hk] using ih

theorem alookup_aerase_ne {κ α : Type} [DecidableEq κ]
    (l : List (κ × α)) (k q : κ) (hne : q ≠ k) :
    alookup (aerase l k) q = alookup l q := by
  induction l with
  | nil => simp [aerase, alookup]
  | cons e rest ih =>
      obtain ⟨k0, v0⟩ := e
      by_cases hk : k0 = k
      · subst hk
        simpa [aerase, List.filter_cons, alookup, Ne.symm hne] using ih
      · by_cases hq : k0 = q
        · simp [aerase, List.filter_cons, hk, alookup, hq, hne]
        · simpa [aerase, List.filter_cons, hk, alookup, hq] using ih

theorem mem_aerase {κ α : Type} [DecidableEq κ]
    {l : List (κ × α)} {k : κ} {e : κ × α} :
    e ∈ aerase l k ↔ e ∈ l ∧ e.1 ≠ k := by
  simp [aerase, List.mem_filter]

theorem mem_aset_elim {κ α : Type} [DecidableEq κ]
    {l : List (κ × α)} {k : κ} {v : α} {e : κ × α} (h : e ∈ aset l k v) :
    e = (k, v) ∨ e ∈ l := by
  induction l with
  | nil => simpa [aset] using h
  | cons e0 rest ih =>
      obtain ⟨k0, v0⟩ := e0
      by_cases hk : k0 = k
      · simp only [aset, if_pos hk, List.mem_cons] at h
        rcases h with h | h
        · exact Or.inl h
        · exact Or.inr (List.mem_cons_of_mem _ h)
      · simp only [aset, if_neg hk, List.mem_cons] at h
        rcases h with h | h
        · exact Or.inr (by simp [h])
        · rcases ih h with h2 | h2
          · exact Or.inl h2
          · exact Or.inr (List.mem_cons_of_mem _ h2)

theorem keysOf_aset_of_none {κ α : Type} [DecidableEq κ]
    (l : List (κ × α)) (k : κ) (v : α) (h : alookup l k = none) :
    keysOf (aset l k v) = keysOf l ++ [k] := by
  induction l with
  | nil => simp [aset, keysOf]
  | cons e rest ih =>
      obtain ⟨k0, v0⟩ := e
      by_cases hk : k0 = k
      · simp [alookup, hk] at h
      · simp only [alookup, if_neg hk] at h
        have h2 := ih h
        simp only [aset, if_neg hk, keysOf, List.map_cons, List.cons_append]
        simp only [keysOf] at h2
        rw [h2]

theorem keysOf_aset_of_some {κ α : Type} [DecidableEq κ]
    (l : List (κ × α)) (k : κ) (v : α) (h : (alookup l k).isSome) :
    keysOf (aset l k v) = keysOf l := by
  induction l with
  | nil => simp [alookup] at h
  | cons e rest ih =>
      obtain ⟨k0, v0⟩ := e
      by_cases hk : k0 = k
      · simp [aset, hk, keysOf]
      · simp only [alookup, if_neg hk] at h
        have h2 := ih h
        simp only [aset, if_neg hk, keysOf, List.map_cons]
        simp only [keysOf] at h2
        rw [h2]

theorem nodup_keys_aset {κ α : Type} [DecidableEq κ]
    (l : List (κ × α)) (k : κ) (v : α) (h : (keysOf l).Nodup) :
    (keysOf (aset l k v)).Nodup := by
  rcases ho : alookup l k with _ | w
  · rw [keysOf_aset_of_none l k v ho]
    have hk : k ∉ keysOf l := (alookup_eq_none_iff l k).mp ho
    simpa [List.nodup_append] using ⟨h, hk⟩
  · rw [keysOf_aset_of_some l k v (by simp [ho])]
    exact h

theorem nodup_keys_aerase {κ α : Type} [DecidableEq κ]
    (l : List (κ × α)) (k : κ) (h : (keysOf l).Nodup) :
    (keysOf (aerase l k)).Nodup := by
  have hsub : List.Sublist (keysOf (aerase l k)) (keysOf l) := by
    unfold keysOf aerase
    exact List.Sublist.map _ (List.filter_sublist l)
  exact h.sublist hsub

/-! ## Data model

`V3` stands for a THREE.js `Vector3`/`Euler` triple; components are
rationals (the scene files use decimal literals; no floating-point rounding
is relevant to the claims below).

`Gltf` is the parsed asset record (`gltf` in the source): for the loader
claims only the root transform of `gltf.scene` is observable, because
`createInstance` clones that scene and overrides whichever transform
fields the config supplies.  (The material store of the scene graph is
modelled separately below for the instantiation claims.)
-/

structure V3 where
  x : Rat
  y : Rat
  z : Rat
deriving DecidableEq

structure Gltf where
  pos : V3
  rot : V3
  scl : V3
deriving DecidableEq

/-- The `modelConfig` object passed to `loadModel` / `createInstance`
(`path`, `name`, optional `position` / `rotation` / `scale`;
`undefined` fields are `none`).  The `processMaterials` / `enableShadows` /
`materialConfig` fields are modelled in the scene-graph section below;
for the loader transition system we consider configs without material
work, whose `createInstance` body has no internal suspension point and
never touches the two cache tables either way. -/
structure ModelConfig where
  path : String
  name : String
  position : Option V3
  rotation : Option V3
  scale : Option V3
deriving DecidableEq

/-- A clone produced by `createInstance`: `gltf.scene.clone()` with the
config transforms applied.  `iid` is the identity of the fresh clone
object (distinct instances have distinct `iid`s). -/
structure Instance where
  iid : Nat
  pos : V3
  rot : V3
  scl : V3
deriving DecidableEq

/-- The mutable fields of an `OptimizedModelLoader` object
(source lines 4–23): `modelCache` maps a path to the parsed `gltf`,
`loadingPromises` maps a path to the id of the in-flight promise,
`loadedModels` maps an instance name to the produced model, `sceneObjs`
is the injected `scene` container, and `totalLoads` / `cacheHits`
are `loadingStats.totalLoads` / `loadingStats.cacheHits`
(`loadingStats.loadingTime` is wall-clock time, not modelled).
`nextIid` is the allocator for clone identities. -/
structure LoaderState where
  modelCache : List (String × Gltf)
  loadingPromises : List (String × Nat)
  loadedModels : List (String × Instance)
  sceneObjs : List Instance
  totalLoads : Nat
  cacheHits : Nat
  nextIid : Nat
deriving DecidableEq

/-- `createInstance(gltf, modelConfig)` (source lines 106–152), for a
config without material processing or shadow work: clone `gltf.scene`
(the clone starts with the scene root's transform), then override
`scale` / `position` / `rotation` when supplied (in that source order),
add the clone to the scene and register it under `modelConfig.name`.
For such configs the `async` body has no internal suspension that
mutates loader state, so it is one atomic step of the event loop. -/
def createInstance (g : Gltf) (cfg : ModelConfig) (s : LoaderState) :
    Instance × LoaderState :=
  let m0 : Instance := { iid := s.nextIid, pos := g.pos, rot := g.rot, scl := g.scl }
  let m1 := match cfg.scale with
    | some v => { m0 with scl := v }
    | none => m0
  let m2 := match cfg.position with
    | some v => { m1 with pos := v }
    | none => m1
  let m3 := match cfg.rotation with
    | some v => { m2 with rot := v }
    | none => m2
  (m3, { s with
          nextIid := s.nextIid + 1,
          sceneObjs := s.sceneObjs ++ [m3],
          loadedModels := aset s.loadedModels cfg.name m3 })

/-- `getCacheStats()` (source lines 269–283).  `hitRatePct` models the
`hitRate` percentage (the source formats it as a string with one decimal;
we keep the exact rational, `none` when `totalLoads` is zero as the source
then returns `0`).  `averageLoadTime` depends on wall-clock timing and is
not modelled.  The function only reads `loadingStats` and
`modelCache.size`. -/
structure CacheStats where
  totalLoads : Nat
  cacheHits : Nat
  hitRatePct : Option Rat
  cachedModels : Nat
deriving DecidableEq

def getCacheStats (s : LoaderState) : CacheStats :=
  { totalLoads := s.totalLoads
    cacheHits := s.cacheHits
    hitRatePct :=
      if s.totalLoads > 0 then some ((s.cacheHits : Rat) / s.totalLoads * 100)
      else none
    cachedModels := s.modelCache.length }

/-! ## The event-loop transition system

A `loadModel(config)` caller is a `Proc`.  Its `Phase` records which
suspension point it is parked at:

* `start` — the call has been issued but its synchronous prefix has not
  run yet;
* `waitingOther pid` — branch 2 of `loadModel` (lines 43–47): suspended on
  `await this.loadingPromises.get(cacheKey)`, where `pid` identifies the
  promise that was in the table when the prefix ran;
* `awaitingOwn pid` — branch 3 via `loadModelFromDisk` (lines 68–103):
  this caller created promise `pid` and is suspended on
  `await loadingPromise`;
* `finished inst` — `loadModel` returned `inst`;
* `failed` — `loadModel` rethrew the load error.

The network side of `this.loader.load`: `outstanding` holds the fetches
whose callback has not run yet, and a `fire pid o` choice runs the
success/error callback of promise `pid` (for a success, the callback body
`modelCache.set(cacheKey, gltf); resolve(gltf)` is one synchronous block,
source lines 74–79). `settled` records each promise's outcome.
`fetchLog` records every `this.loader.load` invocation, in order. -/

inductive Phase where
  | start
  | waitingOther (pid : Nat)
  | awaitingOwn (pid : Nat)
  | finished (inst : Instance)
  | failed
deriving DecidableEq

structure Proc where
  cfg : ModelConfig
  phase : Phase
deriving DecidableEq

inductive Outcome where
  | ok (g : Gltf)
  | err
deriving DecidableEq

structure Sys where
  loader : LoaderState
  procs : List Proc
  outstanding : List (Nat × String)
  settled : List (Nat × Outcome)
  fetchLog : List String
  nextPid : Nat
deriving DecidableEq

inductive Choice where
  | runProc (i : Nat)
  | fire (pid : Nat) (o : Outcome)
deriving DecidableEq

/-- One scheduling step of process `i` (when it is runnable; a parked or
terminal process is a no-op step).

`Phase.start` is the synchronous prefix of `loadModel` (lines 26–53):
`loadingStats.totalLoads++`, then the three-way branch.  Branch 3 runs the
synchronous prefix of `loadModelFromDisk` in the same block: the `Promise`
executor calls `this.loader.load` (the fetch starts, recorded in
`fetchLog` / `outstanding`), then `loadingPromises.set(cacheKey, ...)`
executes — all before the first `await`, so no other task can observe the
table without this entry.

A parked process resumes only when its promise is settled.  For the owner
(`awaitingOwn`), the resumed continuation (lines 96–102) deletes the
pending entry and, on success, returns the gltf to `loadModel`, which
builds the instance; on failure it rethrows and `loadModel` propagates the
error.  The `await` boundaries inside that resumption (between the delete
and `createInstance`) touch no loader table, so the resumption is one step
here. -/
def runProcStep (sys : Sys) (i : Nat) (p : Proc) : Sys :=
  match p.phase with
  | Phase.start =>
      let L0 := sys.loader
      let L1 := { L0 with totalLoads := L0.totalLoads + 1 }
      match alookup L1.modelCache p.cfg.path with
      | some g =>
          let L2 := { L1 with cacheHits := L1.cacheHits + 1 }
          let r := createInstance g p.cfg L2
          { sys with
              loader := r.2
              procs := sys.procs.set i { p with phase := Phase.finished r.1 } }
      | none =>
          match alookup L1.loadingPromises p.cfg.path with
          | some pid =>
              { sys with
                  loader := L1
                  procs := sys.procs.set i { p with phase := Phase.waitingOther pid } }
          | none =>
              let pid := sys.nextPid
              { sys with
                  loader := { L1 with
                    loadingPromises := aset L1.loadingPromises p.cfg.path pid }
                  procs := sys.procs.set i { p with phase := Phase.awaitingOwn pid }
                  outstanding := (pid, p.cfg.path) :: sys.outstanding
                  fetchLog := sys.fetchLog ++ [p.cfg.path]
                  nextPid := pid + 1 }
  | Phase.waitingOther pid =>
      (match alookup sys.settled pid with
      | some (Outcome.ok g) =>
          let r := createInstance g p.cfg sys.loader
          { sys with
              loader := r.2
              procs := sys.procs.set i { p with phase := Phase.finished r.1 } }
      | some Outcome.err =>
          { sys with procs := sys.procs.set i { p with phase := Phase.failed } }
      | none => sys)
  | Phase.awaitingOwn pid =>
      (match alookup sys.settled pid with
      | some (Outcome.ok g) =>
          let L1 := { sys.loader with
            loadingPromises := aerase sys.loader.loadingPromises p.cfg.path }
          let r := createInstance g p.cfg L1
          { sys with
              loader := r.2
              procs := sys.procs.set i { p with phase := Phase.finished r.1 } }
      | some Outcome.err =>
          { sys with
              loader := { sys.loader with
                loadingPromises := aerase sys.loader.loadingPromises p.cfg.path }
              procs := sys.procs.set i { p with phase := Phase.failed } }
      | none => sys)
  | Phase.finished _ => sys
  | Phase.failed => sys

/-- The network callback of promise `pid` (at most once per fetch): on
success the source's `onLoad` (lines 74–79) stores the parsed gltf in
`modelCache` and resolves; `onError` (lines 86–89) rejects without
touching any table. -/
def fireStep (sys : Sys) (pid : Nat) (o : Outcome) : Sys :=
  match alookup sys.outstanding pid with
  | some path =>
      let sys1 := { sys with
        outstanding := aerase sys.outstanding pid
        settled := (pid, o) :: sys.settled }
      match o with
      | Outcome.ok g =>
          { sys1 with loader := { sys1.loader with
              modelCache := aset sys1.loader.modelCache path g } }
      | Outcome.err => sys1
  | none => sys

def step (sys : Sys) : Choice → Sys
  | Choice.runProc i =>
      match sys.procs.get? i with
      | some p => runProcStep sys i p
      | none => sys
  | Choice.fire pid o => fireStep sys pid o

def run (sys : Sys) (cs : List Choice) : Sys := cs.foldl step sys

def initLoader : LoaderState :=
  { modelCache := []
    loadingPromises := []
    loadedModels := []
    sceneObjs := []
    totalLoads := 0
    cacheHits := 0
    nextIid := 0 }

/-- `N` concurrent `loadModel` calls, one `Proc` per config, none of whose
synchronous prefixes has run yet. -/
def initSys (cfgs : List ModelConfig) : Sys :=
  { loader := initLoader
    procs := cfgs.map (fun c => { cfg := c, phase := Phase.start })
    outstanding := []
    settled := []
    fetchLog := []
    nextPid := 0 }

def Phase.isTerminal : Phase → Bool
  | Phase.finished _ => true
  | Phase.failed => true
  | _ => false

def Phase.isStart : Phase → Bool
  | Phase.start => true
  | _ => false

def Choice.isFire : Choice → Bool
  | Choice.fire _ _ => true
  | _ => false

/-! ## Concrete inputs used by the scenario claims -/

def cfgX : ModelConfig :=
  { path := "a.glb", name := "x", position := some ⟨1, 2, 3⟩,
    rotation := none, scale := none }

def cfgY : ModelConfig := { cfgX with name := "y" }

/-- A parsed asset whose scene root has the identity transform. -/
def gA : Gltf := { pos := ⟨0, 0, 0⟩, rot := ⟨0, 0, 0⟩, scl := ⟨1, 1, 1⟩ }

/-- A parsed asset whose scene root carries a non-identity transform. -/
def gOff : Gltf := { pos := ⟨7, 0, 0⟩, rot := ⟨0, 0, 0⟩, scl := ⟨1, 1, 1⟩ }

/-- The spec's example scenario: two back-to-back `loadModel` calls for
`a.glb` in one scheduling turn (both synchronous prefixes run before the
network settles), then the fetch succeeds and both continuations run. -/
def scenarioRun : Sys :=
  run (initSys [cfgX, cfgY])
    [Choice.runProc 0, Choice.runProc 1, Choice.fire 0 (Outcome.ok gA),
     Choice.runProc 0, Choice.runProc 1]

/-- C4, counterexample.  In the example scenario the second call finds a
PendingLoad (branch 2 of `loadModel`), not a cached AssetRecord, and
branch 2 does not increment `loadingStats.cacheHits`; so the reported
`hits` is `0`, not `1` as the claim states (while `requests` is `2` and
exactly one fetch occurred, as claimed). -/
theorem claim4_hits_counterexample :
    (getCacheStats scenarioRun.loader).cacheHits = 0 ∧
    (getCacheStats scenarioRun.loader).cacheHits ≠ 1 ∧
    (getCacheStats scenarioRun.loader).totalLoads = 2 ∧
    scenarioRun.fetchLog = ["a.glb"] := by
  decide

/-- C4, amended: in the example scenario exactly one fetch of `a.glb`
occurs, two distinct instances are registered under `"x"` and `"y"`, both
report position `(1,2,3)`, and `getCacheStatistics()` afterwards reports
`requests == 2` and `hits == 0` (the second call waits on the PendingLoad,
which is not counted as a cache hit). -/
theorem claim4_example_scenario :
    scenarioRun.fetchLog = ["a.glb"] ∧
    (∃ i1 i2 : Instance,
      alookup scenarioRun.loader.loadedModels "x" = some i1 ∧
      alookup scenarioRun.loader.loadedModels "y" = some i2 ∧
      i1.iid ≠ i2.iid ∧
      i1.pos = ⟨1, 2, 3⟩ ∧ i2.pos = ⟨1, 2, 3⟩) ∧
    (getCacheStats scenarioRun.loader).totalLoads = 2 ∧
    (getCacheStats scenarioRun.loader).cacheHits = 0 := by
  refine ⟨by decide, ⟨⟨0, ⟨1,2,3⟩, ⟨0,0,0⟩, ⟨1,1,1⟩⟩, ⟨1, ⟨1,2,3⟩, ⟨0,0,0⟩, ⟨1,1,1⟩⟩, by decide, by decide, by decide, by decide, by decide⟩, by decide, by decide⟩

/-- The state reached after the fetch's success callback has run
(`modelCache.set(cacheKey, gltf); resolve(gltf)`, source lines 74–79) but
before the awaiting `loadModelFromDisk` continuation has been scheduled
(which performs `loadingPromises.delete(cacheKey)`, line 97). -/
def bothTablesState : Sys :=
  run (initSys [cfgX]) [Choice.runProc 0, Choice.fire 0 (Outcome.ok gA)]

/-- C3, counterexample.  A reachable state (at a suspension point of an
in-flight load) in which the path `a.glb` simultaneously has an
AssetRecord in `modelCache` and a PendingLoad in `loadingPromises`,
contradicting the claim that a path never has both at once. -/
theorem claim3_both_tables_counterexample :
    (alookup bothTablesState.loader.modelCache "a.glb").isSome = true ∧
    (alookup bothTablesState.loader.loadingPromises "a.glb").isSome = true := by
  decide

/-! ## C6: cleanup on failure -/

def plainCfg (P n : String) : ModelConfig :=
  { path := P, name := n, position := none, rotation := none, scale := none }

/-- Failure trace: caller 0 issues the load for `P`, the network errors,
caller 0's continuation runs (cleanup plus rethrow), then a later caller 1
requests the same path. -/
def failTrace0 (P n1 n2 : String) : Sys :=
  step (initSys [plainCfg P n1, plainCfg P n2]) (Choice.runProc 0)

def failTrace1 (P n1 n2 : String) : Sys :=
  step (failTrace0 P n1 n2) (Choice.fire 0 Outcome.err)

def failTrace2 (P n1 n2 : String) : Sys :=
  step (failTrace1 P n1 n2) (Choice.runProc 0)

def failTrace3 (P n1 n2 : String) : Sys :=
  step (failTrace2 P n1 n2) (Choice.runProc 1)

/-- C6: for every path `P`, when the fetch for `P` fails the failure is
propagated to the caller (`failed` phase, i.e. `loadModel` rethrew), the
PendingLoad entry — still present when the rejection callback ran — is
removed in the same resumption that rethrows (so exactly once), no
AssetRecord for `P` is stored, and a subsequent `loadModel(P)` call starts
a brand-new fetch (a second `this.loader.load` invocation with a fresh
promise) instead of reusing a stale entry. -/
theorem claim6_cleanup_on_failure (P n1 n2 : String) :
    (failTrace1 P n1 n2).loader.loadingPromises = [(P, 0)] ∧
    (failTrace2 P n1 n2).loader.loadingPromises = [] ∧
    ((failTrace2 P n1 n2).procs.get? 0).map Proc.phase = some Phase.failed ∧
    alookup (failTrace2 P n1 n2).loader.modelCache P = none ∧
    (failTrace2 P n1 n2).fetchLog = [P] ∧
    (failTrace3 P n1 n2).fetchLog = [P, P] ∧
    ((failTrace3 P n1 n2).procs.get? 1).map Proc.phase =
      some (Phase.awaitingOwn 1) ∧
    alookup (failTrace3 P n1 n2).loader.loadingPromises P = some 1 := by
  have h0 : failTrace0 P n1 n2 =
      { loader := { initLoader with totalLoads := 1, loadingPromises := [(P, 0)] }
        procs := [⟨plainCfg P n1, Phase.awaitingOwn 0⟩,
                  ⟨plainCfg P n2, Phase.start⟩]
        outstanding := [(0, P)]
        settled := []
        fetchLog := [P]
        nextPid := 1 } := by
    simp [failTrace0, initSys, initLoader, step, runProcStep, alookup, aset,
      plainCfg]
  have h1 : failTrace1 P n1 n2 =
      { loader := { initLoader with totalLoads := 1, loadingPromises := [(P, 0)] }
        procs := [⟨plainCfg P n1, Phase.awaitingOwn 0⟩,
                  ⟨plainCfg P n2, Phase.start⟩]
        outstanding := []
        settled := [(0, Outcome.err)]
        fetchLog := [P]
        nextPid := 1 } := by
    rw [failTrace1, h0]
    simp [step, fireStep, alookup, aerase]
  have h2 : failTrace2 P n1 n2 =
      { loader := { initLoader with totalLoads := 1, loadingPromises := [] }
        procs := [⟨plainCfg P n1, Phase.failed⟩,
                  ⟨plainCfg P n2, Phase.start⟩]
        outstanding := []
        settled := [(0, Outcome.err)]
        fetchLog := [P]
        nextPid := 1 } := by
    rw [failTrace2, h1]
    simp [step, runProcStep, alookup, aerase, plainCfg]
  have h3 : failTrace3 P n1 n2 =
      { loader := { initLoader with totalLoads := 2, loadingPromises := [(P, 1)] }
        procs := [⟨plainCfg P n1, Phase.failed⟩,
                  ⟨plainCfg P n2, Phase.awaitingOwn 1⟩]
        outstanding := [(1, P)]
        settled := [(0, Outcome.err)]
        fetchLog := [P, P]
        nextPid := 2 } := by
    rw [failTrace3, h2]
    simp [step, runProcStep, alookup, aset, plainCfg]
  rw [h1, h2, h3]
  simp [alookup, initLoader]

/-! ## C8: default transform of an instance -/

/-- Load `b.glb` — an asset whose scene root sits at position `(7,0,0)` —
with a config that omits `position`, `rotation` and `scale`. -/
def offsetRun : Sys :=
  run (initSys [plainCfg "b.glb" "p"])
    [Choice.runProc 0, Choice.fire 0 (Outcome.ok gOff), Choice.runProc 0]

/-- C8, counterexample.  With every transform field omitted the produced
instance reports position `(7,0,0)` — the transform inherited from the
cached asset's scene root via `gltf.scene.clone()` — not the identity
translation `(0,0,0)` the claim promises "regardless of the cached asset":
`createInstance` only overrides fields the config supplies and never
resets the clone to an identity transform. -/
theorem claim8_default_transform_counterexample :
    (alookup offsetRun.loader.loadedModels "p").map Instance.pos =
      some ⟨7, 0, 0⟩ ∧
    (alookup offsetRun.loader.loadedModels "p").map Instance.pos ≠
      some ⟨0, 0, 0⟩ := by
  decide

/-- C8, amended: for every `InstanceConfig` whose transform fields
(`position`, `rotation`, `scale`) are omitted, the instance produced keeps
the cached asset's scene-root transform unchanged — which is the identity
exactly when the asset's root transform is the identity, not regardless of
the asset. -/
theorem claim8_default_transform_inherited (g : Gltf) (cfg : ModelConfig)
    (s : LoaderState)
    (hp : cfg.position = none) (hr : cfg.rotation = none)
    (hs : cfg.scale = none) :
    (createInstance g cfg s).1.pos = g.pos ∧
    (createInstance g cfg s).1.rot = g.rot ∧
    (createInstance g cfg s).1.scl = g.scl := by
  simp [createInstance, hp, hr, hs]

/-- Witness for C8's amended theorem at a concrete input. -/
theorem claim8_default_transform_inherited_witness :
    (createInstance gOff (plainCfg "b.glb" "p") initLoader).1.pos = gOff.pos ∧
    (createInstance gOff (plainCfg "b.glb" "p") initLoader).1.rot = gOff.rot ∧
    (createInstance gOff (plainCfg "b.glb" "p") initLoader).1.scl = gOff.scl :=
  claim8_default_transform_inherited gOff (plainCfg "b.glb" "p") initLoader
    (by decide) (by decide) (by decide)

/-! ## Materials (`processSingleMaterial`, source lines 186–206)

A THREE material is modelled by its four numeric properties touched by the
code; a property a given material class lacks (the source guards with
`!== undefined`) is `none`.  `MatConfig` is the `materialConfig` object
(`undefined` fields are `none`).  JavaScript's `a || b` on numbers picks
`b` when `a` is `undefined`, `NaN` or `0`; the configs in this repository
are numeric literals, so falsiness is exactly "absent or zero", which
`jsOrDefault` captures. -/

structure MatRec where
  roughness : Option Rat
  metalness : Option Rat
  aoMapIntensity : Option Rat
  shininess : Option Rat
  needsUpdate : Bool
deriving DecidableEq

structure MatConfig where
  enhanceRealism : Bool
  roughness : Option Rat
  metalness : Option Rat
  aoMapIntensity : Option Rat
  shininess : Option Rat
deriving DecidableEq

/-- `value || dflt` for an optional numeric config field. -/
def jsOrDefault (v : Option Rat) (dflt : Rat) : Rat :=
  match v with
  | some x => if x = 0 then dflt else x
  | none => dflt

/-- `processSingleMaterial(material, config)` (source lines 186–206):
under `config.enhanceRealism`, `material.roughness = config.roughness ||
material.roughness` (and likewise `metalness`), `material.aoMapIntensity
= config.aoMapIntensity || 1.0`, each only when the material has the
property; independently, `material.shininess = config.shininess` when
both sides are defined; finally `material.needsUpdate = true`. -/
def processSingleMaterial (material : MatRec) (config : MatConfig) : MatRec :=
  let m1 :=
    if config.enhanceRealism then
      let a := match material.roughness with
        | some r => { material with roughness := some (jsOrDefault config.roughness r) }
        | none => material
      let b := match a.metalness with
        | some r => { a with metalness := some (jsOrDefault config.metalness r) }
        | none => a
      match b.aoMapIntensity with
        | some _ => { b with aoMapIntensity := some (jsOrDefault config.aoMapIntensity 1) }
        | none => b
    else material
  let m2 := match config.shininess, m1.shininess with
    | some cs, some _ => { m1 with shininess := some cs }
    | _, _ => m1
  { m2 with needsUpdate := true }

theorem jsOrDefault_some_zero (d : Rat) : jsOrDefault (some 0) d = d := by
  simp [jsOrDefault]

theorem jsOrDefault_ne_zero (v : Option Rat) (d : Rat) (hd : d ≠ 0) :
    jsOrDefault v d ≠ 0 := by
  cases v with
  | none => simp [jsOrDefault, hd]
  | some x =>
      by_cases hx : x = 0
      · simp [jsOrDefault, hx, hd]
      · simp [jsOrDefault, hx]

theorem processSingleMaterial_roughness (m : MatRec) (c : MatConfig) :
    (processSingleMaterial m c).roughness =
      if c.enhanceRealism then
        (match m.roughness with
         | some r => some (jsOrDefault c.roughness r)
         | none => m.roughness)
      else m.roughness := by
  rcases m with ⟨mr, mm, ma, ms, mu⟩
  rcases c with ⟨ce, cr, cm, ca, cs⟩
  cases ce <;> cases mr <;> cases mm <;> cases ma <;> cases ms <;> cases cs <;>
    simp [processSingleMaterial]

theorem processSingleMaterial_metalness (m : MatRec) (c : MatConfig) :
    (processSingleMaterial m c).metalness =
      if c.enhanceRealism then
        (match m.metalness with
         | some r => some (jsOrDefault c.metalness r)
         | none => m.metalness)
      else m.metalness := by
  rcases m with ⟨mr, mm, ma, ms, mu⟩
  rcases c with ⟨ce, cr, cm, ca, cs⟩
  cases ce <;> cases mr <;> cases mm <;> cases ma <;> cases ms <;> cases cs <;>
    simp [processSingleMaterial]

theorem processSingleMaterial_aoMapIntensity (m : MatRec) (c : MatConfig) :
    (processSingleMaterial m c).aoMapIntensity =
      if c.enhanceRealism then
        (match m.aoMapIntensity with
         | some _ => some (jsOrDefault c.aoMapIntensity 1)
         | none => m.aoMapIntensity)
      else m.aoMapIntensity := by
  rcases m with ⟨mr, mm, ma, ms, mu⟩
  rcases c with ⟨ce, cr, cm, ca, cs⟩
  cases ce <;> cases mr <;> cases mm <;> cases ma <;> cases ms <;> cases cs <;>
    simp [processSingleMaterial]

/-- C10: with `enhanceRealism` on, a config value of `0` for `roughness`
or `metalness` is falsy, so the material keeps its prior value; an
`aoMapIntensity` of `0` is replaced by `1.0`; and consequently no config
can drive `roughness`/`metalness` to zero on a material where it was not
already zero, nor `aoMapIntensity` to zero at all. -/
theorem claim10_zero_config_values_ignored :
    (∀ (m : MatRec) (c : MatConfig) (r : Rat),
      c.enhanceRealism = true → c.roughness = some 0 → m.roughness = some r →
      (processSingleMaterial m c).roughness = some r) ∧
    (∀ (m : MatRec) (c : MatConfig) (r : Rat),
      c.enhanceRealism = true → c.metalness = some 0 → m.metalness = some r →
      (processSingleMaterial m c).metalness = some r) ∧
    (∀ (m : MatRec) (c : MatConfig) (a : Rat),
      c.enhanceRealism = true → c.aoMapIntensity = some 0 →
      m.aoMapIntensity = some a →
      (processSingleMaterial m c).aoMapIntensity = some 1) ∧
    (∀ (m : MatRec) (c : MatConfig),
      c.enhanceRealism = true → m.roughness ≠ some 0 →
      (processSingleMaterial m c).roughness ≠ some 0) ∧
    (∀ (m : MatRec) (c : MatConfig),
      c.enhanceRealism = true → m.metalness ≠ some 0 →
      (processSingleMaterial m c).metalness ≠ some 0) ∧
    (∀ (m : MatRec) (c : MatConfig),
      c.enhanceRealism = true →
      (processSingleMaterial m c).aoMapIntensity ≠ some 0) := by
  refine ⟨?_, ?_, ?_, ?_, ?_, ?_⟩
  · intro m c r he hc hm
    rw [processSingleMaterial_roughness, if_pos he, hm, hc]
    simp [jsOrDefault_some_zero]
  · intro m c r he hc hm
    rw [processSingleMaterial_metalness, if_pos he, hm, hc]
    simp [jsOrDefault_some_zero]
  · intro m c a he hc hm
    rw [processSingleMaterial_aoMapIntensity, if_pos he, hm, hc]
    simp [jsOrDefault_some_zero]
  · intro m c he hm
    rw [processSingleMaterial_roughness, if_pos he]
    rcases hr : m.roughness with _ | r
    · simp [hr] at hm ⊢
    · have : r ≠ 0 := by
        intro h0
        exact hm (by rw [hr, h0])
      simpa using jsOrDefault_ne_zero c.roughness r this
  · intro m c he hm
    rw [processSingleMaterial_metalness, if_pos he]
    rcases hr : m.metalness with _ | r
    · simp [hr] at hm ⊢
    · have : r ≠ 0 := by
        intro h0
        exact hm (by rw [hr, h0])
      simpa using jsOrDefault_ne_zero c.metalness r this
  · intro m c he
    rw [processSingleMaterial_aoMapIntensity, if_pos he]
    rcases hr : m.aoMapIntensity with _ | a
    · simp
    · simpa using jsOrDefault_ne_zero c.aoMapIntensity 1 one_ne_zero

/-- Witness for C10 at concrete inputs: prior roughness `2` with config
roughness `0` survives; prior `aoMapIntensity` `3` with config `0`
becomes `1`. -/
theorem claim10_zero_config_values_ignored_witness :
    (processSingleMaterial
      { roughness := some 2, metalness := some 2,
        aoMapIntensity := some 3, shininess := none, needsUpdate := false }
      { enhanceRealism := true, roughness := some 0, metalness := some 0,
        aoMapIntensity := some 0, shininess := none }).roughness = some 2 ∧
    (processSingleMaterial
      { roughness := some 2, metalness := some 2,
        aoMapIntensity := some 3, shininess := none, needsUpdate := false }
      { enhanceRealism := true, roughness := some 0, metalness := some 0,
        aoMapIntensity := some 0, shininess := none }).aoMapIntensity =
        some 1 := by
  constructor
  · exact claim10_zero_config_values_ignored.1
      { roughness := some 2, metalness := some 2,
        aoMapIntensity := some 3, shininess := none, needsUpdate := false }
      { enhanceRealism := true, roughness := some 0, metalness := some 0,
        aoMapIntensity := some 0, shininess := none }
      2 rfl rfl rfl
  · exact claim10_zero_config_values_ignored.2.2.1
      { roughness := some 2, metalness := some 2,
        aoMapIntensity := some 3, shininess := none, needsUpdate := false }
      { enhanceRealism := true, roughness := some 0, metalness := some 0,
        aoMapIntensity := some 0, shininess := none }
      3 rfl rfl rfl

/-! ## The scene graph and the instantiation pipeline

For the instantiation claims the interesting state is the scene graph and
its materials.  An `Obj` is a THREE `Object3D` node: mesh flag, an
optional reference into the material store (`object.material`), its shadow
flags, its transform and its children.  `Store` is the heap of material
objects: materials are the mutable substructure that nodes can share, so
they live behind numeric references, and `next` is the allocator. -/

structure Transform where
  pos : V3
  rot : V3
  scl : V3
deriving DecidableEq

mutual
inductive Obj where
  | node (isMesh : Bool) (matRef : Option Nat) (castShadow : Bool)
      (receiveShadow : Bool) (t : Transform) (children : ObjList)
deriving DecidableEq
inductive ObjList where
  | nil
  | cons (head : Obj) (tail : ObjList)
deriving DecidableEq
end

structure Store where
  mats : List (Nat × MatRec)
  next : Nat
deriving DecidableEq

def defaultMat : MatRec :=
  { roughness := none, metalness := none, aoMapIntensity := none,
    shininess := none, needsUpdate := false }

/-- Allocate a fresh store entry holding material contents `X`. -/
def pushMat (st : Store) (X : MatRec) : Store :=
  { mats := st.mats ++ [(st.next, X)], next := st.next + 1 }

mutual
/-- Modelled from the spec: `gltf.scene.clone()` (source line 108) is a
call into the external THREE.js library, whose code is not part of this
repository; the spec describes the instantiation step as "deep-copy the
AssetRecord's scene graph (no shared mutable substructure with the
original or with other instances)".  Accordingly `cloneObj` copies the
node tree and allocates a fresh store entry (with the same contents) for
every material reference.  (A dangling reference — impossible under the
well-formedness hypothesis used by the theorems — clones to a fresh
default material to keep the function total.) -/
def cloneObj : Obj → Store → Obj × Store
  | Obj.node m mr cs rs t ch, st =>
      let pr : Option Nat × Store :=
        match mr with
        | some id =>
            (match alookup st.mats id with
             | some mdata => (some st.next, pushMat st mdata)
             | none => (some st.next, pushMat st defaultMat))
        | none => (none, st)
      let cr := cloneList ch pr.2
      (Obj.node m pr.1 cs rs t cr.1, cr.2)
def cloneList : ObjList → Store → ObjList × Store
  | ObjList.nil, st => (ObjList.nil, st)
  | ObjList.cons h tl, st =>
      let c1 := cloneObj h st
      let c2 := cloneList tl c1.2
      (ObjList.cons c1.1 c2.1, c2.2)
end

mutual
/-- All material references reachable in a (sub)tree, in traversal order. -/
def matRefsObj : Obj → List Nat
  | Obj.node _ mr _ _ _ ch =>
      (match mr with | some id => [id] | none => []) ++ matRefsList ch
def matRefsList : ObjList → List Nat
  | ObjList.nil => []
  | ObjList.cons h tl => matRefsObj h ++ matRefsList tl
end

mutual
/-- The material-collection pass of `processMaterialsAsync` (source lines
156–163): `model.traverse` visits a node before its children and pushes
`object.material` for every mesh that has one. -/
def collectMaterialsObj : Obj → List Nat
  | Obj.node m mr _ _ _ ch =>
      (if m then (match mr with | some id => [id] | none => []) else []) ++
        collectMaterialsList ch
def collectMaterialsList : ObjList → List Nat
  | ObjList.nil => []
  | ObjList.cons h tl => collectMaterialsObj h ++ collectMaterialsList tl
end

mutual
/-- `enableShadowsOptimized(model)` (source lines 209–223): every mesh in
the traversal gets `castShadow = receiveShadow = true`. -/
def enableShadowsObj : Obj → Obj
  | Obj.node m mr cs rs t ch =>
      Obj.node m mr (if m then true else cs) (if m then true else rs) t
        (enableShadowsList ch)
def enableShadowsList : ObjList → ObjList
  | ObjList.nil => ObjList.nil
  | ObjList.cons h tl => ObjList.cons (enableShadowsObj h) (enableShadowsList tl)
end

/-- One `this.processSingleMaterial(material, materialConfig)` call on the
material object behind reference `id`. -/
def processSingleMaterialAt (st : Store) (id : Nat) (c : MatConfig) : Store :=
  match alookup st.mats id with
  | some m => { st with mats := aset st.mats id (processSingleMaterial m c) }
  | none => st

/-- A scheduling-relevant event inside `processMaterialsAsync`: a batch of
`size` materials processed synchronously, or an `await this.yieldControl()`
(source lines 226–230) handing the event loop to other tasks. -/
inductive MEvent where
  | procBatch (size : Nat)
  | yieldCtl
deriving DecidableEq

/-- The batch loop of `processMaterialsAsync` (source lines 167–180):
`batchSize = 5`; each iteration processes `materials.slice(i, i + 5)` and
then yields — the guard `i % batchSize === 0` is true on every iteration
because `i` steps through multiples of 5.  Returns the final store and
the event trace. -/
def processBatches : List Nat → MatConfig → Store → Store × List MEvent
  | [], _, st => (st, [])
  | h :: t, c, st =>
      let batch := (h :: t).take 5
      let st1 := batch.foldl (fun s id => processSingleMaterialAt s id c) st
      let r := processBatches ((h :: t).drop 5) c st1
      (r.1, MEvent.procBatch batch.length :: MEvent.yieldCtl :: r.2)
termination_by ids _ _ => ids.length
decreasing_by
  simp [List.drop_succ_cons]
  omega

/-- The per-instance `modelConfig` fields consumed by `createInstance`
after the path has been resolved (source lines 111–143). -/
structure GraphConfig where
  position : Option V3
  rotation : Option V3
  scale : Option V3
  processMaterials : Bool
  materialConfig : MatConfig
  enableShadows : Bool
deriving DecidableEq

/-- The transform block of `createInstance` (source lines 111–133):
`scale`, `position`, `rotation` are applied to the clone's root when
supplied. -/
def applyConfigTransforms (cfg : GraphConfig) : Obj → Obj
  | Obj.node m mr cs rs t ch =>
      let t1 := match cfg.scale with
        | some v => { t with scl := v }
        | none => t
      let t2 := match cfg.position with
        | some v => { t1 with pos := v }
        | none => t1
      let t3 := match cfg.rotation with
        | some v => { t2 with rot := v }
        | none => t2
      Obj.node m mr cs rs t3 ch

/-- `createInstance(gltf, modelConfig)` (source lines 106–152) at
scene-graph granularity: clone `gltf.scene`, apply the config transforms,
optionally run the batched material processing over the clone's collected
materials, optionally enable shadows.  (The `scene.add` / `loadedModels`
registration acts on the loader state and is modelled in the transition
system above.)  Returns the instance, the final store, and the material
event trace. -/
def createInstanceGraph (gltfScene : Obj) (cfg : GraphConfig) (st : Store) :
    Obj × Store × List MEvent :=
  let c0 := cloneObj gltfScene st
  let model := applyConfigTransforms cfg c0.1
  let pr :=
    if cfg.processMaterials then
      processBatches (collectMaterialsObj model) cfg.materialConfig c0.2
    else (c0.2, [])
  let model2 := if cfg.enableShadows then enableShadowsObj model else model
  (model2, pr.1, pr.2)

/-! ## C7: non-blocking batched instantiation -/

/-- Total number of materials processed along a trace. -/
def batchTotal (tr : List MEvent) : Nat :=
  (tr.map (fun e => match e with
    | MEvent.procBatch k => k
    | MEvent.yieldCtl => 0)).sum

theorem processBatches_cons (h : Nat) (t : List Nat) (c : MatConfig)
    (st : Store) :
    processBatches (h :: t) c st =
      ((processBatches ((h :: t).drop 5) c
          (((h :: t).take 5).foldl (fun s id => processSingleMaterialAt s id c) st)).1,
       MEvent.procBatch ((h :: t).take 5).length :: MEvent.yieldCtl ::
         (processBatches ((h :: t).drop 5) c
           (((h :: t).take 5).foldl (fun s id => processSingleMaterialAt s id c) st)).2) := by
  rw [processBatches]

theorem processBatches_sizes_aux (n : Nat) :
    ∀ (ids : List Nat) (c : MatConfig) (st : Store), ids.length ≤ n →
      ∀ k, MEvent.procBatch k ∈ (processBatches ids c st).2 → 0 < k ∧ k ≤ 5 := by
  induction n with
  | zero =>
      intro ids c st hlen k hk
      rcases ids with _ | ⟨h, t⟩
      · simp [processBatches] at hk
      · simp at hlen
  | succ n ih =>
      intro ids c st hlen k hk
      rcases ids with _ | ⟨h, t⟩
      · simp [processBatches] at hk
      · rw [processBatches_cons] at hk
        simp only [List.mem_cons] at hk
        rcases hk with hk | hk | hk
        · simp only [MEvent.procBatch.injEq] at hk
          subst hk
          refine ⟨?_, ?_⟩ <;>
            (simp only [List.length_take, List.length_cons]; omega)
        · exact absurd hk (by simp)
        · refine ih _ c _ ?_ k hk
          simp only [List.length_drop, List.length_cons] at hlen ⊢
          omega

theorem processBatches_sizes (ids : List Nat) (c : MatConfig) (st : Store) :
    ∀ k, MEvent.procBatch k ∈ (processBatches ids c st).2 → 0 < k ∧ k ≤ 5 :=
  processBatches_sizes_aux ids.length ids c st le_rfl

theorem processBatches_total_aux (n : Nat) :
    ∀ (ids : List Nat) (c : MatConfig) (st : Store), ids.length ≤ n →
      batchTotal (processBatches ids c st).2 = ids.length := by
  induction n with
  | zero =>
      intro ids c st hlen
      rcases ids with _ | ⟨h, t⟩
      · simp [processBatches, batchTotal]
      · simp at hlen
  | succ n ih =>
      intro ids c st hlen
      rcases ids with _ | ⟨h, t⟩
      · simp [processBatches, batchTotal]
      · rw [processBatches_cons]
        simp only [batchTotal, List.map_cons, List.sum_cons]
        have hr := ih ((h :: t).drop 5) c
          (((h :: t).take 5).foldl (fun s id => processSingleMaterialAt s id c) st)
          (by simp only [List.length_drop, List.length_cons] at hlen ⊢; omega)
        simp only [batchTotal] at hr
        rw [hr]
        simp only [List.length_take, List.length_drop, List.length_cons]
        omega

theorem processBatches_total (ids : List Nat) (c : MatConfig) (st : Store) :
    batchTotal (processBatches ids c st).2 = ids.length :=
  processBatches_total_aux ids.length ids c st le_rfl

/-- C7: when the collected materials span more than one batch (more than
five), `processMaterialsAsync` hands control to the event loop at least
once strictly before further material processing (so a concurrently
scheduled task runs interleaved, not after the whole instantiation), every
batch processes at most five materials per yield, and every collected
material is processed. -/
theorem claim7_nonblocking_batches (ids : List Nat) (c : MatConfig)
    (st : Store) (hlen : 5 < ids.length) :
    (∀ k, MEvent.procBatch k ∈ (processBatches ids c st).2 → 0 < k ∧ k ≤ 5) ∧
    MEvent.yieldCtl ∈ (processBatches ids c st).2 ∧
    (∃ pre post, (processBatches ids c st).2 = pre ++ MEvent.yieldCtl :: post ∧
      ∃ k, MEvent.procBatch k ∈ post) ∧
    batchTotal (processBatches ids c st).2 = ids.length := by
  refine ⟨processBatches_sizes ids c st, ?_, ?_, processBatches_total ids c st⟩
  · cases ids with
    | nil => simp at hlen
    | cons h t =>
        rw [processBatches_cons]
        simp
  · cases ids with
    | nil => simp at hlen
    | cons h t =>
        rw [processBatches_cons]
        refine ⟨[MEvent.procBatch ((h :: t).take 5).length],
          (processBatches ((h :: t).drop 5) c
            (((h :: t).take 5).foldl (fun s id => processSingleMaterialAt s id c) st)).2,
          by simp, ?_⟩
        rcases hd : (h :: t).drop 5 with _ | ⟨h2, t2⟩
        · exfalso
          have hlen2 := congrArg List.length hd
          simp only [List.length_drop, List.length_cons, List.length_nil] at hlen2
          simp only [List.length_cons] at hlen
          omega
        · rw [processBatches_cons]
          exact ⟨((h2 :: t2).take 5).length, by simp⟩

/-- Witness for C7 at a concrete input: six materials, two batches. -/
theorem claim7_nonblocking_batches_witness :
    5 < ([0, 1, 2, 3, 4, 5] : List Nat).length ∧
    ((∀ k, MEvent.procBatch k ∈
        (processBatches [0, 1, 2, 3, 4, 5]
          { enhanceRealism := true, roughness := none, metalness := none,
            aoMapIntensity := none, shininess := none }
          { mats := [], next := 6 }).2 → 0 < k ∧ k ≤ 5) ∧
      MEvent.yieldCtl ∈
        (processBatches [0, 1, 2, 3, 4, 5]
          { enhanceRealism := true, roughness := none, metalness := none,
            aoMapIntensity := none, shininess := none }
          { mats := [], next := 6 }).2 ∧
      (∃ pre post,
        (processBatches [0, 1, 2, 3, 4, 5]
          { enhanceRealism := true, roughness := none, metalness := none,
            aoMapIntensity := none, shininess := none }
          { mats := [], next := 6 }).2 = pre ++ MEvent.yieldCtl :: post ∧
        ∃ k, MEvent.procBatch k ∈ post) ∧
      batchTotal
        (processBatches [0, 1, 2, 3, 4, 5]
          { enhanceRealism := true, roughness := none, metalness := none,
            aoMapIntensity := none, shininess := none }
          { mats := [], next := 6 }).2 = ([0, 1, 2, 3, 4, 5] : List Nat).length) :=
  ⟨by decide,
   claim7_nonblocking_batches [0, 1, 2, 3, 4, 5]
     { enhanceRealism := true, roughness := none, metalness := none,
       aoMapIntensity := none, shininess := none }
     { mats := [], next := 6 } (by decide)⟩

/-! ## C2: instantiation never mutates the cached asset

The key facts: `cloneObj` only appends fresh store entries (ids in
`[st.next, result.next)`), every material reference of the clone lies in
that fresh window, and the material-processing pass only touches the ids
it is given.  Hence the cached record's materials — all below the
allocator mark — are never written, and clones made from the same record
have pairwise disjoint material references. -/

theorem alookup_append_single_ne {κ α : Type} [DecidableEq κ]
    (l : List (κ × α)) (k q : κ) (v : α) (hne : q ≠ k) :
    alookup (l ++ [(k, v)]) q = alookup l q := by
  induction l with
  | nil => simp [alookup, Ne.symm hne]
  | cons e rest ih =>
      obtain ⟨k0, v0⟩ := e
      by_cases hq : k0 = q
      · simp [alookup, hq]
      · simpa [alookup, hq] using ih

theorem pushMat_lookup_lt (st : Store) (X : MatRec) (id : Nat)
    (h : id < st.next) :
    alookup (pushMat st X).mats id = alookup st.mats id :=
  alookup_append_single_ne st.mats st.next id X (by omega)

mutual
theorem cloneObj_spec (o : Obj) (st : Store) :
    st.next ≤ (cloneObj o st).2.next ∧
    (∀ id, id < st.next →
      alookup (cloneObj o st).2.mats id = alookup st.mats id) ∧
    (∀ id, id ∈ matRefsObj (cloneObj o st).1 →
      st.next ≤ id ∧ id < (cloneObj o st).2.next) := by
  cases o with
  | node m mr cs rs t ch =>
      cases mr with
      | none =>
          have hm := cloneList_spec ch st
          simpa [cloneObj, matRefsObj] using hm
      | some id0 =>
          rcases hl : alookup st.mats id0 with _ | mdata
          · have hch := cloneList_spec ch (pushMat st defaultMat)
            have hcl1 : (cloneObj (Obj.node m (some id0) cs rs t ch) st).1 =
                Obj.node m (some st.next) cs rs t
                  (cloneList ch (pushMat st defaultMat)).1 := by
              simp [cloneObj, hl]
            have hcl2 : (cloneObj (Obj.node m (some id0) cs rs t ch) st).2 =
                (cloneList ch (pushMat st defaultMat)).2 := by
              simp [cloneObj, hl]
            rw [hcl1, hcl2]
            have hA : st.next + 1 ≤
                (cloneList ch (pushMat st defaultMat)).2.next := hch.1
            refine ⟨by omega, ?_, ?_⟩
            · intro id hid
              have h1 := hch.2.1 id (by simp [pushMat]; omega)
              rw [h1]
              exact pushMat_lookup_lt st defaultMat id hid
            · intro id hid
              simp only [matRefsObj, List.mem_append, List.mem_cons,
                List.not_mem_nil, or_false] at hid
              rcases hid with hid | hid
              · subst hid
                exact ⟨le_rfl, by omega⟩
              · have h2 := hch.2.2 id hid
                have hB : st.next + 1 ≤ id := h2.1
                exact ⟨by omega, h2.2⟩
          · have hch := cloneList_spec ch (pushMat st mdata)
            have hcl1 : (cloneObj (Obj.node m (some id0) cs rs t ch) st).1 =
                Obj.node m (some st.next) cs rs t
                  (cloneList ch (pushMat st mdata)).1 := by
              simp [cloneObj, hl]
            have hcl2 : (cloneObj (Obj.node m (some id0) cs rs t ch) st).2 =
                (cloneList ch (pushMat st mdata)).2 := by
              simp [cloneObj, hl]
            rw [hcl1, hcl2]
            have hA : st.next + 1 ≤
                (cloneList ch (pushMat st mdata)).2.next := hch.1
            refine ⟨by omega, ?_, ?_⟩
            · intro id hid
              have h1 := hch.2.1 id (by simp [pushMat]; omega)
              rw [h1]
              exact pushMat_lookup_lt st mdata id hid
            · intro id hid
              simp only [matRefsObj, List.mem_append, List.mem_cons,
                List.not_mem_nil, or_false] at hid
              rcases hid with hid | hid
              · subst hid
                exact ⟨le_rfl, by omega⟩
              · have h2 := hch.2.2 id hid
                have hB : st.next + 1 ≤ id := h2.1
                exact ⟨by omega, h2.2⟩

theorem cloneList_spec (l : ObjList) (st : Store) :
    st.next ≤ (cloneList l st).2.next ∧
    (∀ id, id < st.next →
      alookup (cloneList l st).2.mats id = alookup st.mats id) ∧
    (∀ id, id ∈ matRefsList (cloneList l st).1 →
      st.next ≤ id ∧ id < (cloneList l st).2.next) := by
  cases l with
  | nil => simp [cloneList, matRefsList]
  | cons h tl =>
      have ih1 := cloneObj_spec h st
      have ih2 := cloneList_spec tl (cloneObj h st).2
      have hcl : cloneList (ObjList.cons h tl) st =
          (ObjList.cons (cloneObj h st).1 (cloneList tl (cloneObj h st).2).1,
           (cloneList tl (cloneObj h st).2).2) := by
        simp [cloneList]
      rw [hcl]
      refine ⟨le_trans ih1.1 ih2.1, ?_, ?_⟩
      · intro id hid
        rw [ih2.2.1 id (lt_of_lt_of_le hid ih1.1), ih1.2.1 id hid]
      · intro id hid
        simp only [matRefsList, List.mem_append] at hid
        rcases hid with hid | hid
        · have h2 := ih1.2.2 id hid
          exact ⟨h2.1, lt_of_lt_of_le h2.2 ih2.1⟩
        · have h2 := ih2.2.2 id hid
          exact ⟨le_trans ih1.1 h2.1, h2.2⟩
end

mutual
theorem matRefs_enableShadowsObj (o : Obj) :
    matRefsObj (enableShadowsObj o) = matRefsObj o := by
  cases o with
  | node m mr cs rs t ch =>
      simp [enableShadowsObj, matRefsObj, matRefs_enableShadowsList ch]

theorem matRefs_enableShadowsList (l : ObjList) :
    matRefsList (enableShadowsList l) = matRefsList l := by
  cases l with
  | nil => rfl
  | cons h tl =>
      simp [enableShadowsList, matRefsList, matRefs_enableShadowsObj h,
        matRefs_enableShadowsList tl]
end

theorem matRefs_applyConfigTransforms (cfg : GraphConfig) (o : Obj) :
    matRefsObj (applyConfigTransforms cfg o) = matRefsObj o := by
  cases o with
  | node m mr cs rs t ch => rfl

mutual
theorem collect_subset_matRefsObj (o : Obj) :
    ∀ id, id ∈ collectMaterialsObj o → id ∈ matRefsObj o := by
  cases o with
  | node m mr cs rs t ch =>
      intro id hid
      simp only [collectMaterialsObj, List.mem_append] at hid
      simp only [matRefsObj, List.mem_append]
      rcases hid with hid | hid
      · left
        cases m with
        | false => simp at hid
        | true => simpa using hid
      · exact Or.inr (collect_subset_matRefsList ch id hid)

theorem collect_subset_matRefsList (l : ObjList) :
    ∀ id, id ∈ collectMaterialsList l → id ∈ matRefsList l := by
  cases l with
  | nil => simp [collectMaterialsList, matRefsList]
  | cons h tl =>
      intro id hid
      simp only [collectMaterialsList, List.mem_append] at hid
      simp only [matRefsList, List.mem_append]
      rcases hid with hid | hid
      · exact Or.inl (collect_subset_matRefsObj h id hid)
      · exact Or.inr (collect_subset_matRefsList tl id hid)
end

theorem processSingleMaterialAt_next (st : Store) (id : Nat) (c : MatConfig) :
    (processSingleMaterialAt st id c).next = st.next := by
  unfold processSingleMaterialAt
  rcases alookup st.mats id with _ | m <;> simp

theorem processSingleMaterialAt_lookup_ne (st : Store) (id q : Nat)
    (c : MatConfig) (hne : q ≠ id) :
    alookup (processSingleMaterialAt st id c).mats q = alookup st.mats q := by
  unfold processSingleMaterialAt
  rcases alookup st.mats id with _ | m
  · simp
  · simpa using alookup_aset_ne st.mats id q _ hne

theorem foldl_psm_next (c : MatConfig) (ids : List Nat) :
    ∀ st : Store,
      (ids.foldl (fun s id => processSingleMaterialAt s id c) st).next =
        st.next := by
  induction ids with
  | nil => intro st; rfl
  | cons h t ih =>
      intro st
      simp only [List.foldl_cons]
      rw [ih, processSingleMaterialAt_next]

theorem foldl_psm_lookup (c : MatConfig) (ids : List Nat) :
    ∀ (st : Store) (q : Nat), q ∉ ids →
      alookup (ids.foldl (fun s id => processSingleMaterialAt s id c) st).mats
        q = alookup st.mats q := by
  induction ids with
  | nil => intro st q _; rfl
  | cons h t ih =>
      intro st q hq
      simp only [List.mem_cons, not_or] at hq
      simp only [List.foldl_cons]
      rw [ih _ q hq.2, processSingleMaterialAt_lookup_ne st h q c hq.1]

theorem processBatches_store_aux (n : Nat) :
    ∀ (ids : List Nat) (c : MatConfig) (st : Store), ids.length ≤ n →
      (processBatches ids c st).1.next = st.next ∧
      (∀ q, q ∉ ids →
        alookup (processBatches ids c st).1.mats q = alookup st.mats q) := by
  induction n with
  | zero =>
      intro ids c st hlen
      rcases ids with _ | ⟨h, t⟩
      · simp [processBatches]
      · simp at hlen
  | succ n ih =>
      intro ids c st hlen
      rcases ids with _ | ⟨h, t⟩
      · simp [processBatches]
      · rw [processBatches_cons]
        have hrec := ih ((h :: t).drop 5) c
          (((h :: t).take 5).foldl (fun s id => processSingleMaterialAt s id c) st)
          (by simp only [List.length_drop, List.length_cons] at hlen ⊢; omega)
        constructor
        · rw [hrec.1, foldl_psm_next]
        · intro q hq
          have hq1 : q ∉ (h :: t).take 5 := fun hmem => hq (List.take_subset 5 _ hmem)
          have hq2 : q ∉ (h :: t).drop 5 := fun hmem => hq (List.drop_subset 5 _ hmem)
          rw [hrec.2 q hq2, foldl_psm_lookup c _ st q hq1]

theorem processBatches_store (ids : List Nat) (c : MatConfig) (st : Store) :
    (processBatches ids c st).1.next = st.next ∧
    (∀ q, q ∉ ids →
      alookup (processBatches ids c st).1.mats q = alookup st.mats q) :=
  processBatches_store_aux ids.length ids c st le_rfl

theorem createInstanceGraph_spec (r : Obj) (cfg : GraphConfig) (st : Store) :
    st.next ≤ (createInstanceGraph r cfg st).2.1.next ∧
    (∀ id, id < st.next →
      alookup (createInstanceGraph r cfg st).2.1.mats id =
        alookup st.mats id) ∧
    (∀ id, id ∈ matRefsObj (createInstanceGraph r cfg st).1 →
      st.next ≤ id ∧ id < (createInstanceGraph r cfg st).2.1.next) := by
  have hclone := cloneObj_spec r st
  have hrefs : matRefsObj (applyConfigTransforms cfg (cloneObj r st).1) =
      matRefsObj (cloneObj r st).1 := matRefs_applyConfigTransforms cfg _
  cases hpm : cfg.processMaterials with
  | false =>
      cases hsh : cfg.enableShadows with
      | false =>
          simp only [createInstanceGraph, hpm, hsh, if_false, Bool.false_eq_true]
          exact ⟨hclone.1, hclone.2.1, fun id hid => hclone.2.2 id (by
            rw [hrefs] at hid; exact hid)⟩
      | true =>
          simp only [createInstanceGraph, hpm, hsh, if_false, if_true,
            Bool.false_eq_true]
          refine ⟨hclone.1, hclone.2.1, fun id hid => hclone.2.2 id ?_⟩
          rw [matRefs_enableShadowsObj, hrefs] at hid
          exact hid
  | true =>
      have hbatch := processBatches_store
        (collectMaterialsObj (applyConfigTransforms cfg (cloneObj r st).1))
        cfg.materialConfig (cloneObj r st).2
      cases hsh : cfg.enableShadows with
      | false =>
          simp only [createInstanceGraph, hpm, hsh, if_true, if_false,
            Bool.false_eq_true]
          refine ⟨?_, ?_, ?_⟩
          · rw [hbatch.1]
            exact hclone.1
          · intro id hid
            have hnotin : id ∉ collectMaterialsObj
                (applyConfigTransforms cfg (cloneObj r st).1) := by
              intro hmem
              have h2 := collect_subset_matRefsObj _ id hmem
              rw [hrefs] at h2
              have := (hclone.2.2 id h2).1
              omega
            rw [hbatch.2 id hnotin]
            exact hclone.2.1 id hid
          · intro id hid
            rw [hrefs] at hid
            have h2 := hclone.2.2 id hid
            rw [hbatch.1]
            exact h2
      | true =>
          simp only [createInstanceGraph, hpm, hsh, if_true,
            Bool.false_eq_true]
          refine ⟨?_, ?_, ?_⟩
          · rw [hbatch.1]
            exact hclone.1
          · intro id hid
            have hnotin : id ∉ collectMaterialsObj
                (applyConfigTransforms cfg (cloneObj r st).1) := by
              intro hmem
              have h2 := collect_subset_matRefsObj _ id hmem
              rw [hrefs] at h2
              have := (hclone.2.2 id h2).1
              omega
            rw [hbatch.2 id hnotin]
            exact hclone.2.1 id hid
          · intro id hid
            rw [matRefs_enableShadowsObj, hrefs] at hid
            have h2 := hclone.2.2 id hid
            rw [hbatch.1]
            exact h2

/-- A sequence of `createInstance` calls against the same cached asset
record, threading the material store. -/
def instantiateMany (gltfScene : Obj) (cfgs : List GraphConfig) (st : Store) :
    List Obj × Store :=
  match cfgs with
  | [] => ([], st)
  | c :: rest =>
      let r1 := createInstanceGraph gltfScene c st
      let r2 := instantiateMany gltfScene rest r1.2.1
      (r1.1 :: r2.1, r2.2)

theorem instantiateMany_spec (r : Obj) (cfgs : List GraphConfig) :
    ∀ st : Store,
      st.next ≤ (instantiateMany r cfgs st).2.next ∧
      (∀ id, id < st.next →
        alookup (instantiateMany r cfgs st).2.mats id = alookup st.mats id) ∧
      (∀ c, c ∈ (instantiateMany r cfgs st).1 → ∀ id, id ∈ matRefsObj c →
        st.next ≤ id ∧ id < (instantiateMany r cfgs st).2.next) ∧
      List.Pairwise (fun a b => ∀ id, id ∈ matRefsObj a → id ∉ matRefsObj b)
        (instantiateMany r cfgs st).1 := by
  induction cfgs with
  | nil =>
      intro st
      simp [instantiateMany]
  | cons c rest ih =>
      intro st
      have h1 := createInstanceGraph_spec r c st
      have h2 := ih (createInstanceGraph r c st).2.1
      have hm : instantiateMany r (c :: rest) st =
          ((createInstanceGraph r c st).1 ::
            (instantiateMany r rest (createInstanceGraph r c st).2.1).1,
           (instantiateMany r rest (createInstanceGraph r c st).2.1).2) := by
        simp [instantiateMany]
      rw [hm]
      refine ⟨le_trans h1.1 h2.1, ?_, ?_, ?_⟩
      · intro id hid
        rw [h2.2.1 id (lt_of_lt_of_le hid h1.1), h1.2.1 id hid]
      · intro cc hcc id hid
        rcases List.mem_cons.mp hcc with hcc | hcc
        · subst hcc
          have h3 := h1.2.2 id hid
          exact ⟨h3.1, lt_of_lt_of_le h3.2 h2.1⟩
        · have h3 := h2.2.2.1 cc hcc id hid
          exact ⟨le_trans h1.1 h3.1, h3.2⟩
      · refine List.Pairwise.cons ?_ h2.2.2.2
        intro b hb id hida hidb
        have ha := h1.2.2 id hida
        have hbmem := h2.2.2.1 b hb id hidb
        omega

/-- C2: producing any sequence of instances from one cached AssetRecord
(each `createInstance` call with an arbitrary `InstanceConfig`, including
material processing and shadow enabling) leaves every material of the
record's scene graph unchanged in the store — the record's scene graph is
never mutated — and the produced clones share no material reference with
the record or with one another. -/
theorem claim2_instantiation_never_mutates_record (r : Obj)
    (cfgs : List GraphConfig) (st : Store)
    (hwf : ∀ id, id ∈ matRefsObj r → id < st.next) :
    (∀ id, id ∈ matRefsObj r →
      alookup (instantiateMany r cfgs st).2.mats id = alookup st.mats id) ∧
    (∀ c, c ∈ (instantiateMany r cfgs st).1 → ∀ id, id ∈ matRefsObj c →
      id ∉ matRefsObj r) ∧
    List.Pairwise (fun a b => ∀ id, id ∈ matRefsObj a → id ∉ matRefsObj b)
      (instantiateMany r cfgs st).1 := by
  have hs := instantiateMany_spec r cfgs st
  refine ⟨fun id hid => hs.2.1 id (hwf id hid), ?_, hs.2.2.2⟩
  intro c hc id hid hmem
  have h1 := (hs.2.2.1 c hc id hid).1
  have h2 := hwf id hmem
  omega

/-- A one-mesh asset record whose single material is store entry `0`. -/
def wRecord : Obj :=
  Obj.node true (some 0) false false
    ⟨⟨0, 0, 0⟩, ⟨0, 0, 0⟩, ⟨1, 1, 1⟩⟩ ObjList.nil

def wMat : MatRec :=
  { roughness := some 2
    metalness := some 2
    aoMapIntensity := some 2
    shininess := none
    needsUpdate := false }

def wStore : Store :=
  { mats := [(0, wMat)]
    next := 1 }

def wMatCfg : MatConfig :=
  { enhanceRealism := true
    roughness := some 1
    metalness := none
    aoMapIntensity := none
    shininess := none }

def wCfg : GraphConfig :=
  { position := some ⟨1, 2, 3⟩
    rotation := none
    scale := none
    processMaterials := true
    materialConfig := wMatCfg
    enableShadows := true }

/-- Witness for C2 at a concrete input: two full instantiations (with
material processing and shadows) from a one-mesh record. -/
theorem claim2_instantiation_never_mutates_record_witness :
    (∀ id, id ∈ matRefsObj wRecord →
      alookup (instantiateMany wRecord [wCfg, wCfg] wStore).2.mats id =
        alookup wStore.mats id) ∧
    (∀ c, c ∈ (instantiateMany wRecord [wCfg, wCfg] wStore).1 →
      ∀ id, id ∈ matRefsObj c → id ∉ matRefsObj wRecord) ∧
    List.Pairwise (fun a b => ∀ id, id ∈ matRefsObj a → id ∉ matRefsObj b)
      (instantiateMany wRecord [wCfg, wCfg] wStore).1 :=
  claim2_instantiation_never_mutates_record wRecord [wCfg, wCfg] wStore
    (by decide)

/-! ## Sequential histories (C5, C9)

A *sequential* history awaits each `loadModel` call to completion before
issuing the next: for request `i` the scheduler runs the call's
synchronous prefix, then (on a cache miss) the network settles its fetch
and the continuation runs.  `seqStep` is that canonical schedule for one
request, expressed with the `step` function of the transition system;
`fails i` says whether request `i`'s fetch errors, and `gOf` gives the
parsed gltf a successful fetch of each path yields. -/

def seqStep (gOf : String → Gltf) (fails : Nat → Bool) (sys : Sys) (i : Nat) :
    Sys :=
  let s1 := step sys (Choice.runProc i)
  match s1.procs.get? i with
  | some p =>
      match p.phase with
      | Phase.awaitingOwn pid =>
          let o := if fails i then Outcome.err else Outcome.ok (gOf p.cfg.path)
          step (step s1 (Choice.fire pid o)) (Choice.runProc i)
      | _ => s1
  | none => s1

def seqRun (gOf : String → Gltf) (fails : Nat → Bool)
    (cfgs : List ModelConfig) : Sys :=
  (List.range cfgs.length).foldl (seqStep gOf fails) (initSys cfgs)

/-- Reference bookkeeping for a sequential history, read off the branch
structure of `loadModel`: processing the requests in order starting at
index `i` with `cached` already-cached paths, it returns (success flag per
request, final cached path list, number of cache hits). -/
def simSeq (fails : Nat → Bool) : Nat → List String → List String →
    List Bool × List String × Nat
  | _, cached, [] => ([], cached, 0)
  | i, cached, p :: rest =>
      if p ∈ cached then
        let r := simSeq fails (i + 1) cached rest
        (true :: r.1, r.2.1, r.2.2 + 1)
      else if fails i then
        let r := simSeq fails (i + 1) cached rest
        (false :: r.1, r.2.1, r.2.2)
      else
        let r := simSeq fails (i + 1) (cached ++ [p]) rest
        (true :: r.1, r.2.1, r.2.2)

theorem alookup_keyMap (gOf : String → Gltf) (cached : List String)
    (q : String) :
    alookup (cached.map (fun p => (p, gOf p))) q =
      if q ∈ cached then some (gOf q) else none := by
  induction cached with
  | nil => simp [alookup]
  | cons h t ih =>
      by_cases hq : h = q
      · subst hq
        simp [alookup]
      · simp [alookup, hq, Ne.symm hq, ih]

theorem aset_eq_append_of_none {κ α : Type} [DecidableEq κ]
    (l : List (κ × α)) (k : κ) (v : α) (h : alookup l k = none) :
    aset l k v = l ++ [(k, v)] := by
  induction l with
  | nil => simp [aset]
  | cons e rest ih =>
      obtain ⟨k0, v0⟩ := e
      by_cases hk : k0 = k
      · simp [alookup, hk] at h
      · simp only [alookup, if_neg hk] at h
        simp [aset, hk, ih h]

theorem get?_append_mid {α : Type} (A : List α) (b : α) (B : List α) :
    (A ++ b :: B).get? A.length = some b := by
  induction A with
  | nil => rfl
  | cons a t ih => simpa using ih

theorem get?_append_right_mid {α : Type} (A : List α) (b : α) (B : List α)
    (j : Nat) :
    (A ++ b :: B).get? (A.length + 1 + j) = B.get? j := by
  induction A with
  | nil =>
      have : 0 + 1 + j = j + 1 := by omega
      simp [this]
  | cons a t ih =>
      have : t.length + 1 + 1 + j = (t.length + 1 + j) + 1 := by omega
      simpa [List.length_cons, this] using ih

theorem get?_append_left_mid {α : Type} (A : List α) (b : α) (B : List α)
    (j : Nat) (h : j < A.length) :
    (A ++ b :: B).get? j = A.get? j := by
  induction A generalizing j with
  | nil => simp at h
  | cons a t ih =>
      cases j with
      | zero => rfl
      | succ j2 =>
          simp only [List.length_cons] at h
          simpa using ih j2 (by omega)

theorem set_append_mid {α : Type} (A : List α) (b : α) (B : List α) (v : α) :
    (A ++ b :: B).set A.length v = A ++ v :: B := by
  induction A with
  | nil => rfl
  | cons a t ih => simp [ih]

/-- The processes of `rest` configs none of which has started yet. -/
def startProcs (rest : List ModelConfig) : List Proc :=
  rest.map (fun c => { cfg := c, phase := Phase.start })

/-- A loader in the quiescent shape between sequential requests: `cached`
paths cached (with the `gOf` records), no pending loads. -/
def seqLoader (gOf : String → Gltf) (cached : List String)
    (lm : List (String × Instance)) (so : List Instance) (T H ni : Nat) :
    LoaderState :=
  { modelCache := cached.map (fun p => (p, gOf p))
    loadingPromises := []
    loadedModels := lm
    sceneObjs := so
    totalLoads := T
    cacheHits := H
    nextIid := ni }

/-- A system in the quiescent shape between sequential requests. -/
def mkSeqSys (gOf : String → Gltf) (cached : List String) (procs : List Proc)
    (lm : List (String × Instance)) (so : List Instance) (T H ni : Nat)
    (settled : List (Nat × Outcome)) (flog : List String) (np : Nat) : Sys :=
  { loader := seqLoader gOf cached lm so T H ni
    procs := procs
    outstanding := []
    settled := settled
    fetchLog := flog
    nextPid := np }

/-- The instance a cache-hit request produces. -/
def hitModel (gOf : String → Gltf) (cached : List String)
    (lm : List (String × Instance)) (so : List Instance) (T H ni : Nat)
    (c : ModelConfig) : Instance :=
  (createInstance (gOf c.path) c
    (seqLoader gOf cached lm so (T + 1) (H + 1) ni)).1

/-- The instance a successful cache-miss request produces (the record is
cached by the success callback before the instance is built). -/
def missModel (gOf : String → Gltf) (cached : List String)
    (lm : List (String × Instance)) (so : List Instance) (T H ni : Nat)
    (c : ModelConfig) : Instance :=
  (createInstance (gOf c.path) c
    (seqLoader gOf (cached ++ [c.path]) lm so (T + 1) H ni)).1

theorem seqStep_hit (gOf : String → Gltf) (fails : Nat → Bool)
    (done : List Proc) (restp : List Proc) (cached : List String)
    (lm : List (String × Instance)) (so : List Instance) (T H ni : Nat)
    (settled : List (Nat × Outcome)) (flog : List String) (np : Nat)
    (c : ModelConfig) (hmem : c.path ∈ cached) :
    seqStep gOf fails
      (mkSeqSys gOf cached (done ++ ⟨c, Phase.start⟩ :: restp) lm so T H ni
        settled flog np) done.length =
    mkSeqSys gOf cached
      (done ++ ⟨c, Phase.finished (hitModel gOf cached lm so T H ni c)⟩ :: restp)
      (aset lm c.name (hitModel gOf cached lm so T H ni c))
      (so ++ [hitModel gOf cached lm so T H ni c])
      (T + 1) (H + 1) (ni + 1) settled flog np := by
  have hget : (done ++ (⟨c, Phase.start⟩ : Proc) :: restp).get? done.length =
      some ⟨c, Phase.start⟩ := get?_append_mid done _ _
  have hlook : alookup (cached.map (fun p => (p, gOf p))) c.path =
      some (gOf c.path) := by
    rw [alookup_keyMap]
    simp [hmem]
  rw [seqStep]
  simp only [mkSeqSys, seqLoader, step, hget, runProcStep, hlook,
    set_append_mid, get?_append_mid, hitModel, createInstance]

theorem seqStep_miss_ok (gOf : String → Gltf) (fails : Nat → Bool)
    (done : List Proc) (restp : List Proc) (cached : List String)
    (lm : List (String × Instance)) (so : List Instance) (T H ni : Nat)
    (settled : List (Nat × Outcome)) (flog : List String) (np : Nat)
    (c : ModelConfig) (hmem : c.path ∉ cached)
    (hfail : fails done.length = false) :
    seqStep gOf fails
      (mkSeqSys gOf cached (done ++ ⟨c, Phase.start⟩ :: restp) lm so T H ni
        settled flog np) done.length =
    mkSeqSys gOf (cached ++ [c.path])
      (done ++ ⟨c, Phase.finished (missModel gOf cached lm so T H ni c)⟩ :: restp)
      (aset lm c.name (missModel gOf cached lm so T H ni c))
      (so ++ [missModel gOf cached lm so T H ni c])
      (T + 1) H (ni + 1) ((np, Outcome.ok (gOf c.path)) :: settled)
      (flog ++ [c.path]) (np + 1) := by
  have hget : (done ++ (⟨c, Phase.start⟩ : Proc) :: restp).get? done.length =
      some ⟨c, Phase.start⟩ := get?_append_mid done _ _
  have hget2 : (done ++ (⟨c, Phase.awaitingOwn np⟩ : Proc) :: restp).get?
      done.length = some ⟨c, Phase.awaitingOwn np⟩ := get?_append_mid done _ _
  have hlook : alookup (cached.map (fun p => (p, gOf p))) c.path = none := by
    rw [alookup_keyMap]
    simp [hmem]
  have hcachemap : aset (cached.map (fun p => (p, gOf p))) c.path (gOf c.path) =
      (cached ++ [c.path]).map (fun p => (p, gOf p)) := by
    rw [aset_eq_append_of_none _ _ _ hlook]
    simp
  have h1 : step
      (mkSeqSys gOf cached (done ++ ⟨c, Phase.start⟩ :: restp) lm so T H ni
        settled flog np) (Choice.runProc done.length) =
      { loader := { modelCache := cached.map (fun p => (p, gOf p))
                    loadingPromises := [(c.path, np)]
                    loadedModels := lm
                    sceneObjs := so
                    totalLoads := T + 1
                    cacheHits := H
                    nextIid := ni }
        procs := done ++ ⟨c, Phase.awaitingOwn np⟩ :: restp
        outstanding := [(np, c.path)]
        settled := settled
        fetchLog := flog ++ [c.path]
        nextPid := np + 1 } := by
    simp only [mkSeqSys, seqLoader, step, hget, runProcStep, hlook, alookup,
      aset, set_append_mid]
  have h2 : step
      ({ loader := { modelCache := cached.map (fun p => (p, gOf p))
                     loadingPromises := [(c.path, np)]
                     loadedModels := lm
                     sceneObjs := so
                     totalLoads := T + 1
                     cacheHits := H
                     nextIid := ni }
         procs := done ++ ⟨c, Phase.awaitingOwn np⟩ :: restp
         outstanding := [(np, c.path)]
         settled := settled
         fetchLog := flog ++ [c.path]
         nextPid := np + 1 } : Sys) (Choice.fire np (Outcome.ok (gOf c.path))) =
      { loader := { modelCache := (cached ++ [c.path]).map (fun p => (p, gOf p))
                    loadingPromises := [(c.path, np)]
                    loadedModels := lm
                    sceneObjs := so
                    totalLoads := T + 1
                    cacheHits := H
                    nextIid := ni }
        procs := done ++ ⟨c, Phase.awaitingOwn np⟩ :: restp
        outstanding := []
        settled := (np, Outcome.ok (gOf c.path)) :: settled
        fetchLog := flog ++ [c.path]
        nextPid := np + 1 } := by
    simp only [step, fireStep, alookup, aerase, List.filter, if_pos rfl,
      hcachemap]
    simp [aset, hcachemap]
  have h3 : step
      ({ loader := { modelCache := (cached ++ [c.path]).map (fun p => (p, gOf p))
                     loadingPromises := [(c.path, np)]
                     loadedModels := lm
                     sceneObjs := so
                     totalLoads := T + 1
                     cacheHits := H
                     nextIid := ni }
         procs := done ++ ⟨c, Phase.awaitingOwn np⟩ :: restp
         outstanding := []
         settled := (np, Outcome.ok (gOf c.path)) :: settled
         fetchLog := flog ++ [c.path]
         nextPid := np + 1 } : Sys) (Choice.runProc done.length) =
      mkSeqSys gOf (cached ++ [c.path])
        (done ++ ⟨c, Phase.finished (missModel gOf cached lm so T H ni c)⟩ :: restp)
        (aset lm c.name (missModel gOf cached lm so T H ni c))
        (so ++ [missModel gOf cached lm so T H ni c])
        (T + 1) H (ni + 1) ((np, Outcome.ok (gOf c.path)) :: settled)
        (flog ++ [c.path]) (np + 1) := by
    simp only [step, hget2, runProcStep, alookup, if_pos rfl, aerase,
      List.filter, mkSeqSys, seqLoader, missModel, createInstance,
      set_append_mid]
    simp [set_append_mid]
  rw [seqStep]
  simp only [h1, hget2, hfail, Bool.false_eq_true, if_false, h2, h3]

theorem seqStep_miss_err (gOf : String → Gltf) (fails : Nat → Bool)
    (done : List Proc) (restp : List Proc) (cached : List String)
    (lm : List (String × Instance)) (so : List Instance) (T H ni : Nat)
    (settled : List (Nat × Outcome)) (flog : List String) (np : Nat)
    (c : ModelConfig) (hmem : c.path ∉ cached)
    (hfail : fails done.length = true) :
    seqStep gOf fails
      (mkSeqSys gOf cached (done ++ ⟨c, Phase.start⟩ :: restp) lm so T H ni
        settled flog np) done.length =
    mkSeqSys gOf cached (done ++ ⟨c, Phase.failed⟩ :: restp) lm so
      (T + 1) H ni ((np, Outcome.err) :: settled) (flog ++ [c.path])
      (np + 1) := by
  have hget : (done ++ (⟨c, Phase.start⟩ : Proc) :: restp).get? done.length =
      some ⟨c, Phase.start⟩ := get?_append_mid done _ _
  have hget2 : (done ++ (⟨c, Phase.awaitingOwn np⟩ : Proc) :: restp).get?
      done.length = some ⟨c, Phase.awaitingOwn np⟩ := get?_append_mid done _ _
  have hlook : alookup (cached.map (fun p => (p, gOf p))) c.path = none := by
    rw [alookup_keyMap]
    simp [hmem]
  have h1 : step
      (mkSeqSys gOf cached (done ++ ⟨c, Phase.start⟩ :: restp) lm so T H ni
        settled flog np) (Choice.runProc done.length) =
      { loader := { modelCache := cached.map (fun p => (p, gOf p))
                    loadingPromises := [(c.path, np)]
                    loadedModels := lm
                    sceneObjs := so
                    totalLoads := T + 1
                    cacheHits := H
                    nextIid := ni }
        procs := done ++ ⟨c, Phase.awaitingOwn np⟩ :: restp
        outstanding := [(np, c.path)]
        settled := settled
        fetchLog := flog ++ [c.path]
        nextPid := np + 1 } := by
    simp only [mkSeqSys, seqLoader, step, hget, runProcStep, hlook, alookup,
      aset, set_append_mid]
  have h2 : step
      ({ loader := { modelCache := cached.map (fun p => (p, gOf p))
                     loadingPromises := [(c.path, np)]
                     loadedModels := lm
                     sceneObjs := so
                     totalLoads := T + 1
                     cacheHits := H
                     nextIid := ni }
         procs := done ++ ⟨c, Phase.awaitingOwn np⟩ :: restp
         outstanding := [(np, c.path)]
         settled := settled
         fetchLog := flog ++ [c.path]
         nextPid := np + 1 } : Sys) (Choice.fire np Outcome.err) =
      { loader := { modelCache := cached.map (fun p => (p, gOf p))
                    loadingPromises := [(c.path, np)]
                    loadedModels := lm
                    sceneObjs := so
                    totalLoads := T + 1
                    cacheHits := H
                    nextIid := ni }
        procs := done ++ ⟨c, Phase.awaitingOwn np⟩ :: restp
        outstanding := []
        settled := (np, Outcome.err) :: settled
        fetchLog := flog ++ [c.path]
        nextPid := np + 1 } := by
    simp only [step, fireStep, alookup, aerase, List.filter, if_pos rfl]
    simp
  have h3 : step
      ({ loader := { modelCache := cached.map (fun p => (p, gOf p))
                     loadingPromises := [(c.path, np)]
                     loadedModels := lm
                     sceneObjs := so
                     totalLoads := T + 1
                     cacheHits := H
                     nextIid := ni }
         procs := done ++ ⟨c, Phase.awaitingOwn np⟩ :: restp
         outstanding := []
         settled := (np, Outcome.err) :: settled
         fetchLog := flog ++ [c.path]
         nextPid := np + 1 } : Sys) (Choice.runProc done.length) =
      mkSeqSys gOf cached (done ++ ⟨c, Phase.failed⟩ :: restp) lm so
        (T + 1) H ni ((np, Outcome.err) :: settled) (flog ++ [c.path])
        (np + 1) := by
    simp only [step, hget2, runProcStep, alookup, if_pos rfl, aerase,
      List.filter, mkSeqSys, seqLoader, set_append_mid]
    simp [set_append_mid]
  rw [seqStep]
  simp only [h1, hget2, hfail, if_true, h2, h3]

theorem seqRun_aux (gOf : String → Gltf) (fails : Nat → Bool)
    (rest : List ModelConfig) :
    ∀ (done : List Proc) (cached : List String)
      (lm : List (String × Instance)) (so : List Instance) (T H ni : Nat)
      (settled : List (Nat × Outcome)) (flog : List String) (np : Nat),
      ∃ (procs2 : List Proc) (lm2 : List (String × Instance))
        (so2 : List Instance) (ni2 : Nat) (settled2 : List (Nat × Outcome))
        (flog2 : List String) (np2 : Nat),
        (List.range' done.length rest.length).foldl (seqStep gOf fails)
            (mkSeqSys gOf cached (done ++ startProcs rest) lm so T H ni
              settled flog np) =
          mkSeqSys gOf
            (simSeq fails done.length cached (rest.map (fun c => c.path))).2.1
            procs2 lm2 so2 (T + rest.length)
            (H + (simSeq fails done.length cached
              (rest.map (fun c => c.path))).2.2) ni2 settled2 flog2 np2 ∧
        procs2.length = done.length + rest.length ∧
        (∀ j, j < done.length → procs2.get? j = done.get? j) ∧
        (∀ j, j < rest.length → ∃ pr : Proc,
          procs2.get? (done.length + j) = some pr ∧
          (∀ cj, rest.get? j = some cj → pr.cfg = cj) ∧
          ((simSeq fails done.length cached
              (rest.map (fun c => c.path))).1.get? j = some true →
            ∃ inst, pr.phase = Phase.finished inst) ∧
          ((simSeq fails done.length cached
              (rest.map (fun c => c.path))).1.get? j = some false →
            pr.phase = Phase.failed)) := by
  induction rest with
  | nil =>
      intro done cached lm so T H ni settled flog np
      refine ⟨done, lm, so, ni, settled, flog, np, ?_, by simp, fun j hj => rfl,
        fun j hj => absurd hj (by simp)⟩
      simp [simSeq, startProcs]
  | cons c rest2 ih =>
      intro done cached lm so T H ni settled flog np
      have hsp : startProcs (c :: rest2) =
          (⟨c, Phase.start⟩ : Proc) :: startProcs rest2 := rfl
      have hrange : List.range' done.length (c :: rest2).length =
          done.length :: List.range' (done.length + 1) rest2.length := by
        rw [List.length_cons]
        exact List.range'_succ done.length rest2.length 1
      by_cases hmem : c.path ∈ cached
      · -- branch 1 of loadModel: cache hit
        obtain ⟨procs2, lm2, so2, ni2, settled2, flog2, np2, hfold, hlen,
          hdone, hrest⟩ :=
          ih (done ++ [⟨c, Phase.finished (hitModel gOf cached lm so T H ni c)⟩])
            cached (aset lm c.name (hitModel gOf cached lm so T H ni c))
            (so ++ [hitModel gOf cached lm so T H ni c]) (T + 1) (H + 1)
            (ni + 1) settled flog np
        have hlen1 : (done ++
            [(⟨c, Phase.finished (hitModel gOf cached lm so T H ni c)⟩ : Proc)]).length =
            done.length + 1 := by simp
        rw [hlen1] at hfold hrest
        refine ⟨procs2, lm2, so2, ni2, settled2, flog2, np2, ?_, ?_, ?_, ?_⟩
        · rw [hrange, List.foldl_cons, hsp, seqStep_hit gOf fails done
            (startProcs rest2) cached lm so T H ni settled flog np c hmem]
          have hshape : done ++
              (⟨c, Phase.finished (hitModel gOf cached lm so T H ni c)⟩ : Proc)
                :: startProcs rest2 =
              (done ++ [⟨c, Phase.finished (hitModel gOf cached lm so T H ni c)⟩])
                ++ startProcs rest2 := by simp
          rw [hshape]
          rw [hfold]
          simp only [List.map_cons, simSeq, if_pos hmem, List.length_cons]
          have e1 : T + 1 + rest2.length = T + (rest2.length + 1) := by omega
          have e2 : H + 1 + (simSeq fails (done.length + 1) cached
              (rest2.map (fun c => c.path))).2.2 =
              H + ((simSeq fails (done.length + 1) cached
                (rest2.map (fun c => c.path))).2.2 + 1) := by omega
          rw [e1, e2]
        · rw [hlen]
          simp
          omega
        · intro j hj
          rw [hdone j (by simp; omega)]
          exact get?_append_left_mid done _ [] j hj
        · intro j hj
          cases j with
          | zero =>
              refine ⟨⟨c, Phase.finished (hitModel gOf cached lm so T H ni c)⟩,
                ?_, ?_, ?_, ?_⟩
              · have := hdone done.length (by simp)
                rw [Nat.add_zero, this]
                exact get?_append_mid done _ []
              · intro cj hcj
                simp only [List.get?] at hcj
                cases hcj
                rfl
              · intro hflag
                exact ⟨hitModel gOf cached lm so T H ni c, rfl⟩
              · intro hflag
                simp only [List.map_cons, simSeq, if_pos hmem] at hflag
                simp at hflag
          | succ j2 =>
              simp only [List.length_cons] at hj
              obtain ⟨pr, hpr, hcfg, hflagt, hflagf⟩ := hrest j2 (by omega)
              refine ⟨pr, ?_, ?_, ?_, ?_⟩
              · have harith : done.length + (j2 + 1) = done.length + 1 + j2 := by
                  omega
                rw [harith]
                exact hpr
              · intro cj hcj
                exact hcfg cj (by simpa using hcj)
              · intro hflag
                refine hflagt ?_
                simpa only [List.map_cons, simSeq, if_pos hmem,
                  List.get?_cons_succ] using hflag
              · intro hflag
                refine hflagf ?_
                simpa only [List.map_cons, simSeq, if_pos hmem,
                  List.get?_cons_succ] using hflag
      · cases hfl : fails done.length with
        | false =>
            -- branch 3 of loadModel: miss, fetch succeeds
            obtain ⟨procs2, lm2, so2, ni2, settled2, flog2, np2, hfold, hlen,
              hdone, hrest⟩ :=
              ih (done ++ [⟨c, Phase.finished (missModel gOf cached lm so T H ni c)⟩])
                (cached ++ [c.path])
                (aset lm c.name (missModel gOf cached lm so T H ni c))
                (so ++ [missModel gOf cached lm so T H ni c]) (T + 1) H
                (ni + 1) ((np, Outcome.ok (gOf c.path)) :: settled)
                (flog ++ [c.path]) (np + 1)
            have hlen1 : (done ++
                [(⟨c, Phase.finished (missModel gOf cached lm so T H ni c)⟩ : Proc)]).length =
                done.length + 1 := by simp
            rw [hlen1] at hfold hrest
            refine ⟨procs2, lm2, so2, ni2, settled2, flog2, np2, ?_, ?_, ?_, ?_⟩
            · rw [hrange, List.foldl_cons, hsp, seqStep_miss_ok gOf fails done
                (startProcs rest2) cached lm so T H ni settled flog np c hmem
                hfl]
              have hshape : done ++
                  (⟨c, Phase.finished (missModel gOf cached lm so T H ni c)⟩ : Proc)
                    :: startProcs rest2 =
                  (done ++ [⟨c, Phase.finished (missModel gOf cached lm so T H ni c)⟩])
                    ++ startProcs rest2 := by simp
              rw [hshape]
              rw [hfold]
              simp only [List.map_cons, simSeq, if_neg hmem, hfl,
                Bool.false_eq_true, if_false, List.length_cons]
              have e1 : T + 1 + rest2.length = T + (rest2.length + 1) := by
                omega
              rw [e1]
            · rw [hlen]
              simp
              omega
            · intro j hj
              rw [hdone j (by simp; omega)]
              exact get?_append_left_mid done _ [] j hj
            · intro j hj
              cases j with
              | zero =>
                  refine ⟨⟨c, Phase.finished (missModel gOf cached lm so T H ni c)⟩,
                    ?_, ?_, ?_, ?_⟩
                  · have := hdone done.length (by simp)
                    rw [Nat.add_zero, this]
                    exact get?_append_mid done _ []
                  · intro cj hcj
                    simp only [List.get?] at hcj
                    cases hcj
                    rfl
                  · intro hflag
                    exact ⟨missModel gOf cached lm so T H ni c, rfl⟩
                  · intro hflag
                    simp only [List.map_cons, simSeq, if_neg hmem, hfl,
                      Bool.false_eq_true, if_false] at hflag
                    simp at hflag
              | succ j2 =>
                  simp only [List.length_cons] at hj
                  obtain ⟨pr, hpr, hcfg, hflagt, hflagf⟩ := hrest j2 (by omega)
                  refine ⟨pr, ?_, ?_, ?_, ?_⟩
                  · have harith : done.length + (j2 + 1) = done.length + 1 + j2 := by
                      omega
                    rw [harith]
                    exact hpr
                  · intro cj hcj
                    exact hcfg cj (by simpa using hcj)
                  · intro hflag
                    refine hflagt ?_
                    simpa only [List.map_cons, simSeq, if_neg hmem, hfl,
                      Bool.false_eq_true, if_false, List.get?_cons_succ]
                      using hflag
                  · intro hflag
                    refine hflagf ?_
                    simpa only [List.map_cons, simSeq, if_neg hmem, hfl,
                      Bool.false_eq_true, if_false, List.get?_cons_succ]
                      using hflag
        | true =>
            -- branch 3 of loadModel: miss, fetch fails
            obtain ⟨procs2, lm2, so2, ni2, settled2, flog2, np2, hfold, hlen,
              hdone, hrest⟩ :=
              ih (done ++ [⟨c, Phase.failed⟩]) cached lm so (T + 1) H ni
                ((np, Outcome.err) :: settled) (flog ++ [c.path]) (np + 1)
            have hlen1 : (done ++ [(⟨c, Phase.failed⟩ : Proc)]).length =
                done.length + 1 := by simp
            rw [hlen1] at hfold hrest
            refine ⟨procs2, lm2, so2, ni2, settled2, flog2, np2, ?_, ?_, ?_, ?_⟩
            · rw [hrange, List.foldl_cons, hsp, seqStep_miss_err gOf fails done
                (startProcs rest2) cached lm so T H ni settled flog np c hmem
                hfl]
              have hshape : done ++ (⟨c, Phase.failed⟩ : Proc)
                    :: startProcs rest2 =
                  (done ++ [⟨c, Phase.failed⟩]) ++ startProcs rest2 := by simp
              rw [hshape]
              rw [hfold]
              simp only [List.map_cons, simSeq, if_neg hmem, hfl, if_true,
                List.length_cons]
              have e1 : T + 1 + rest2.length = T + (rest2.length + 1) := by
                omega
              rw [e1]
            · rw [hlen]
              simp
              omega
            · intro j hj
              rw [hdone j (by simp; omega)]
              exact get?_append_left_mid done _ [] j hj
            · intro j hj
              cases j with
              | zero =>
                  refine ⟨⟨c, Phase.failed⟩, ?_, ?_, ?_, ?_⟩
                  · have := hdone done.length (by simp)
                    rw [Nat.add_zero, this]
                    exact get?_append_mid done _ []
                  · intro cj hcj
                    simp only [List.get?] at hcj
                    cases hcj
                    rfl
                  · intro hflag
                    simp only [List.map_cons, simSeq, if_neg hmem, hfl,
                      if_true] at hflag
                    simp at hflag
                  · intro hflag
                    rfl
              | succ j2 =>
                  simp only [List.length_cons] at hj
                  obtain ⟨pr, hpr, hcfg, hflagt, hflagf⟩ := hrest j2 (by omega)
                  refine ⟨pr, ?_, ?_, ?_, ?_⟩
                  · have harith : done.length + (j2 + 1) = done.length + 1 + j2 := by
                      omega
                    rw [harith]
                    exact hpr
                  · intro cj hcj
                    exact hcfg cj (by simpa using hcj)
                  · intro hflag
                    refine hflagt ?_
                    simpa only [List.map_cons, simSeq, if_neg hmem, hfl,
                      if_true, List.get?_cons_succ] using hflag
                  · intro hflag
                    refine hflagf ?_
                    simpa only [List.map_cons, simSeq, if_neg hmem, hfl,
                      if_true, List.get?_cons_succ] using hflag

theorem simSeq_flags_length (fails : Nat → Bool) (paths : List String) :
    ∀ (i : Nat) (cached : List String),
      (simSeq fails i cached paths).1.length = paths.length := by
  induction paths with
  | nil => intro i cached; simp [simSeq]
  | cons p rest ih =>
      intro i cached
      by_cases hmem : p ∈ cached
      · simp [simSeq, hmem, ih]
      · cases hfl : fails i <;> simp [simSeq, hmem, hfl, ih]

theorem simSeq_flag_true (fails : Nat → Bool) (paths : List String) :
    ∀ (i : Nat) (cached : List String) (j : Nat), j < paths.length →
      fails (i + j) = false →
      (simSeq fails i cached paths).1.get? j = some true := by
  induction paths with
  | nil => intro i cached j hj; simp at hj
  | cons p rest ih =>
      intro i cached j hj hf
      cases j with
      | zero =>
          simp only [Nat.add_zero] at hf
          by_cases hmem : p ∈ cached
          · simp [simSeq, hmem]
          · simp [simSeq, hmem, hf]
      | succ j2 =>
          simp only [List.length_cons] at hj
          have hf2 : fails (i + 1 + j2) = false := by
            have : i + 1 + j2 = i + (j2 + 1) := by omega
            rw [this]
            exact hf
          by_cases hmem : p ∈ cached
          · simpa [simSeq, hmem] using ih (i + 1) cached j2 (by omega) hf2
          · cases hfl : fails i <;>
              simpa [simSeq, hmem, hfl] using ih (i + 1) _ j2 (by omega) hf2

theorem simSeq_false_spec (paths : List String) :
    ∀ (i : Nat) (cached : List String), cached.Nodup →
      (simSeq (fun _ => false) i cached paths).2.1.Nodup ∧
      (simSeq (fun _ => false) i cached paths).2.1.toFinset =
        cached.toFinset ∪ paths.toFinset ∧
      (simSeq (fun _ => false) i cached paths).2.1.length +
        (simSeq (fun _ => false) i cached paths).2.2 =
        cached.length + paths.length := by
  induction paths with
  | nil =>
      intro i cached h
      simp [simSeq, h]
  | cons p rest ih =>
      intro i cached h
      by_cases hmem : p ∈ cached
      · have hr := ih (i + 1) cached h
        have hp : p ∈ cached.toFinset := List.mem_toFinset.mpr hmem
        refine ⟨by simpa [simSeq, hmem] using hr.1, ?_, ?_⟩
        · have := hr.2.1
          simp only [simSeq, if_pos hmem]
          rw [this, List.toFinset_cons, Finset.union_insert,
            Finset.insert_eq_self.mpr (Finset.mem_union_left _ hp)]
        · have := hr.2.2
          simp only [simSeq, if_pos hmem, List.length_cons]
          omega
      · have hnodup : (cached ++ [p]).Nodup := by
          simp [List.nodup_append, h, hmem]
        have hr := ih (i + 1) (cached ++ [p]) hnodup
        refine ⟨by simpa [simSeq, hmem] using hr.1, ?_, ?_⟩
        · have := hr.2.1
          simp only [simSeq, if_neg hmem, Bool.false_eq_true, if_false]
          rw [this]
          simp only [List.toFinset_append, List.toFinset_cons,
            List.toFinset_nil, Finset.union_assoc]
          rw [Finset.insert_eq, Finset.insert_eq]
          ext q
          simp

        · have := hr.2.2
          simp only [simSeq, if_neg hmem, Bool.false_eq_true, if_false,
            List.length_cons]
          simp only [List.length_append, List.length_cons, List.length_nil]
            at this
          omega

/-- `initSys` is the quiescent shape with nothing cached and nothing done. -/
theorem initSys_eq_mkSeqSys (gOf : String → Gltf) (cfgs : List ModelConfig) :
    initSys cfgs = mkSeqSys gOf [] (startProcs cfgs) [] [] 0 0 0 [] [] 0 := rfl

/-- C5: after any sequential all-successful history (each request awaited
before the next; `H` of them find their path cached, `M` miss, with the
`M` missed paths pairwise distinct because each miss caches its path),
`getCacheStats` reports `totalLoads = H + M` (the spec's `requests`),
`cacheHits = H` (the spec's `hits`), and `cachedModels = M` (the spec's
`cachedAssetCount`), where `M` is the number of distinct requested paths
and `H + M` the number of requests; moreover the `cacheHits` counter can
only change on branch 1 of `loadModel` — a `start` step that finds its
path in `modelCache` — and then by exactly one. -/
theorem claim5_statistics_accuracy :
    (∀ (gOf : String → Gltf) (cfgs : List ModelConfig),
      (getCacheStats (seqRun gOf (fun _ => false) cfgs).loader).totalLoads =
        cfgs.length ∧
      (getCacheStats (seqRun gOf (fun _ => false) cfgs).loader).cachedModels =
        (cfgs.map (fun c => c.path)).toFinset.card ∧
      (getCacheStats (seqRun gOf (fun _ => false) cfgs).loader).cacheHits =
        cfgs.length - (cfgs.map (fun c => c.path)).toFinset.card) ∧
    (∀ (sys : Sys) (ch : Choice),
      (step sys ch).loader.cacheHits = sys.loader.cacheHits ∨
      (∃ i p g, ch = Choice.runProc i ∧ sys.procs.get? i = some p ∧
        p.phase = Phase.start ∧
        alookup sys.loader.modelCache p.cfg.path = some g ∧
        (step sys ch).loader.cacheHits = sys.loader.cacheHits + 1)) := by
  constructor
  · intro gOf cfgs
    obtain ⟨procs2, lm2, so2, ni2, settled2, flog2, np2, hfold, hlen, hdone,
      hrest⟩ := seqRun_aux gOf (fun _ => false) cfgs [] [] [] [] 0 0 0 [] [] 0
    simp only [List.nil_append, List.length_nil] at hfold
    have hrun : seqRun gOf (fun _ => false) cfgs =
        mkSeqSys gOf
          (simSeq (fun _ => false) 0 [] (cfgs.map (fun c => c.path))).2.1
          procs2 lm2 so2 (0 + cfgs.length)
          (0 + (simSeq (fun _ => false) 0 []
            (cfgs.map (fun c => c.path))).2.2) ni2 settled2 flog2 np2 := by
      rw [seqRun, initSys_eq_mkSeqSys gOf cfgs, List.range_eq_range']
      exact hfold
    have hsim := simSeq_false_spec (cfgs.map (fun c => c.path)) 0 []
      List.nodup_nil
    have hcard : (simSeq (fun _ => false) 0 []
        (cfgs.map (fun c => c.path))).2.1.length =
        (cfgs.map (fun c => c.path)).toFinset.card := by
      rw [← List.toFinset_card_of_nodup hsim.1, hsim.2.1]
      simp
    have hsum := hsim.2.2
    simp only [List.length_map, List.length_nil] at hsum
    rw [hrun]
    refine ⟨?_, ?_, ?_⟩
    · simp [getCacheStats, mkSeqSys, seqLoader]
    · simp only [getCacheStats, mkSeqSys, seqLoader, List.length_map]
      exact hcard
    · simp only [getCacheStats, mkSeqSys, seqLoader, Nat.zero_add]
      rw [← hcard]
      omega
  · intro sys ch
    cases ch with
    | fire pid o =>
        left
        rw [step]
        unfold fireStep
        rcases alookup sys.outstanding pid with _ | path
        · rfl
        · cases o <;> simp
    | runProc i =>
        rcases hget : sys.procs.get? i with _ | p
        · left
          have hgetE : sys.procs[i]? = none := by
            rw [← List.get?_eq_getElem?]
            exact hget
          simp [step, hget, hgetE]
        · have hgetE : sys.procs[i]? = some p := by
            rw [← List.get?_eq_getElem?]
            exact hget
          rcases hph : p.phase with _ | pid | pid | inst | _
          · rcases hlook : alookup sys.loader.modelCache p.cfg.path
              with _ | g
            · left
              rcases hpend : alookup sys.loader.loadingPromises p.cfg.path
                with _ | pid2 <;>
                simp [step, hget, hgetE, runProcStep, hph, hlook, hpend]
            · right
              refine ⟨i, p, g, rfl, hget, hph, hlook, ?_⟩
              simp [step, hget, hgetE, runProcStep, hph, hlook, createInstance]
          · left
            rcases hset : alookup sys.settled pid with _ | o
            · simp [step, hget, hgetE, runProcStep, hph, hset]
            · cases o <;>
                simp [step, hget, hgetE, runProcStep, hph, hset, createInstance]
          · left
            rcases hset : alookup sys.settled pid with _ | o
            · simp [step, hget, hgetE, runProcStep, hph, hset]
            · cases o <;>
                simp [step, hget, hgetE, runProcStep, hph, hset, createInstance]
          · left
            simp [step, hget, hgetE, runProcStep, hph]
          · left
            simp [step, hget, hgetE, runProcStep, hph]

/-- `loadModelsProgressively(modelConfigs)` (source lines 233–266): load
each config in order, awaiting each `loadModel` to completion; a failed
load is caught and contributes `null` to the results instead of aborting
the loop.  The `onProgress` callback is a pure observer and the
between-model `yieldControl` affects only scheduling, so in this
sequential run both are invisible; the function never rejects — it is a
total function of its inputs. -/
def loadModelsProgressively (gOf : String → Gltf) (fails : Nat → Bool)
    (cfgs : List ModelConfig) : List (Option Instance) :=
  (seqRun gOf fails cfgs).procs.map (fun pr =>
    match pr.phase with
    | Phase.finished inst => some inst
    | _ => none)

/-- C9: `loadModelsProgressively` is total (never rejects) and
order-preserving: the result has one entry per config — the loaded
instance exactly when that config's own load succeeded (cache hit, or a
fetch its failure oracle does not fail), `null` when it failed — and a
failure at one position does not prevent later configs from loading: any
request whose own fetch does not fail produces an instance. -/
theorem claim9_progressive_loading (gOf : String → Gltf) (fails : Nat → Bool)
    (cfgs : List ModelConfig) :
    (loadModelsProgressively gOf fails cfgs).length = cfgs.length ∧
    (loadModelsProgressively gOf fails cfgs).map Option.isSome =
      (simSeq fails 0 [] (cfgs.map (fun c => c.path))).1 ∧
    (∀ j, j < cfgs.length → fails j = false →
      ∃ inst, (loadModelsProgressively gOf fails cfgs).get? j =
        some (some inst)) := by
  obtain ⟨procs2, lm2, so2, ni2, settled2, flog2, np2, hfold, hlen, hdone,
    hrest⟩ := seqRun_aux gOf fails cfgs [] [] [] [] 0 0 0 [] [] 0
  simp only [List.nil_append, List.length_nil] at hfold hrest
  have hrun : seqRun gOf fails cfgs =
      mkSeqSys gOf (simSeq fails 0 [] (cfgs.map (fun c => c.path))).2.1
        procs2 lm2 so2 (0 + cfgs.length)
        (0 + (simSeq fails 0 [] (cfgs.map (fun c => c.path))).2.2) ni2
        settled2 flog2 np2 := by
    rw [seqRun, initSys_eq_mkSeqSys gOf cfgs, List.range_eq_range']
    exact hfold
  have hlen2 : procs2.length = cfgs.length := by
    simpa using hlen
  have hflen : (simSeq fails 0 [] (cfgs.map (fun c => c.path))).1.length =
      cfgs.length := by
    rw [simSeq_flags_length]
    simp
  have hlmp : loadModelsProgressively gOf fails cfgs =
      procs2.map (fun pr =>
        match pr.phase with
        | Phase.finished inst => some inst
        | _ => none) := by
    rw [loadModelsProgressively, hrun]
    rfl
  have hentry : ∀ j, j < cfgs.length →
      ((simSeq fails 0 [] (cfgs.map (fun c => c.path))).1.get? j = some true →
        ∃ inst, (loadModelsProgressively gOf fails cfgs).get? j =
          some (some inst)) ∧
      ((simSeq fails 0 [] (cfgs.map (fun c => c.path))).1.get? j = some false →
        (loadModelsProgressively gOf fails cfgs).get? j = some none) := by
    intro j hj
    obtain ⟨pr, hpr, hcfg, hflagt, hflagf⟩ := hrest j hj
    simp only [Nat.zero_add] at hpr
    constructor
    · intro hflag
      obtain ⟨inst, hinst⟩ := hflagt hflag
      refine ⟨inst, ?_⟩
      rw [hlmp, List.get?_map, hpr]
      simp [hinst]
    · intro hflag
      have hfail := hflagf hflag
      rw [hlmp, List.get?_map, hpr]
      simp [hfail]
  refine ⟨?_, ?_, ?_⟩
  · rw [hlmp, List.length_map, hlen2]
  · apply List.ext_get?
    intro n
    by_cases hn : n < cfgs.length
    · rcases hfn : (simSeq fails 0 [] (cfgs.map (fun c => c.path))).1.get? n
        with _ | b
      · rw [List.get?_eq_none] at hfn
        omega
      · cases b with
        | true =>
            obtain ⟨inst, hinst⟩ := (hentry n hn).1 hfn
            rw [List.get?_map, hinst, hfn]
            simp
        | false =>
            have h2 := (hentry n hn).2 hfn
            rw [List.get?_map, h2, hfn]
            simp
    · have h1 : ((loadModelsProgressively gOf fails cfgs).map
          Option.isSome).get? n = none := by
        rw [List.get?_eq_none, List.length_map, hlmp, List.length_map, hlen2]
        omega
      have h2 : (simSeq fails 0 [] (cfgs.map (fun c => c.path))).1.get? n =
          none := by
        rw [List.get?_eq_none, hflen]
        omega
      rw [h1, h2]
  · intro j hj hf
    have hflag := simSeq_flag_true fails (cfgs.map (fun c => c.path)) 0 [] j
      (by simpa using hj) (by simpa using hf)
    exact (hentry j hj).1 hflag

/-- Witness for C9 at a concrete input: a single config whose fetch does
not fail yields an instance entry. -/
theorem claim9_progressive_loading_witness :
    0 < ([plainCfg "a.glb" "x"] : List ModelConfig).length ∧
    (fun _ : Nat => false) 0 = false ∧
    ∃ inst, (loadModelsProgressively (fun _ => gA) (fun _ => false)
      [plainCfg "a.glb" "x"]).get? 0 = some (some inst) :=
  ⟨by decide, rfl,
   (claim9_progressive_loading (fun _ => gA) (fun _ => false)
     [plainCfg "a.glb" "x"]).2.2 0 (by decide) rfl⟩

/-! ## C1: at-most-one-fetch under concurrent same-path requests

We follow the run of `N` concurrent `loadModel(P)` calls through two
phases.  Phase 1 is the prefix of the schedule in which the network has
not settled anything (`NoFire`): its reachable states are exactly
"nothing has happened yet" or "one caller issued the single fetch and
every other caller that ran is parked on that caller's promise".  Phase 2
is the remainder: the one promise settles once, and every caller drains
to `finished` (on success) or `failed` (on failure).  No state in either
phase can issue a second fetch for `P`. -/

theorem get?_set_self {α : Type} (l : List α) (i : Nat) (a : α)
    (h : i < l.length) : (l.set i a).get? i = some a := by
  induction l generalizing i with
  | nil => simp at h
  | cons x t ih =>
      cases i with
      | zero => rfl
      | succ i2 =>
          simp only [List.length_cons] at h
          simpa using ih i2 (by omega)

theorem get?_set_ne {α : Type} (l : List α) (i j : Nat) (a : α)
    (h : i ≠ j) : (l.set i a).get? j = l.get? j := by
  induction l generalizing i j with
  | nil => simp
  | cons x t ih =>
      cases i with
      | zero =>
          cases j with
          | zero => exact absurd rfl h
          | succ j2 => rfl
      | succ i2 =>
          cases j with
          | zero => rfl
          | succ j2 => simpa using ih i2 j2 (by omega)

/-- Every issued call is for path `P`. -/
def AllPath (P : String) (s : Sys) : Prop :=
  ∀ j pr, s.procs.get? j = some pr → pr.cfg.path = P

/-- Reachable states before the network settles anything: either nothing
has run, or exactly one caller (at index `k`) owns the single issued
fetch (promise `0`) and everyone else is unstarted or parked on it. -/
def PhaseOne (P : String) (s : Sys) : Prop :=
  (s.loader.modelCache = [] ∧ s.loader.loadingPromises = [] ∧
    s.outstanding = [] ∧ s.settled = [] ∧ s.fetchLog = [] ∧ s.nextPid = 0 ∧
    ∀ j pr, s.procs.get? j = some pr → pr.phase = Phase.start) ∨
  (s.loader.modelCache = [] ∧ s.loader.loadingPromises = [(P, 0)] ∧
    s.outstanding = [(0, P)] ∧ s.settled = [] ∧ s.fetchLog = [P] ∧
    s.nextPid = 1 ∧
    ∃ k pr0, s.procs.get? k = some pr0 ∧ pr0.phase = Phase.awaitingOwn 0 ∧
      ∀ j pr, s.procs.get? j = some pr → j ≠ k →
        pr.phase = Phase.start ∨ pr.phase = Phase.waitingOther 0)

/-- Reachable states once the single fetch has been issued: the promise
settles at most once, succeeding into a cached record or failing, and
callers drain accordingly.  `fetchLog = [P]` throughout: no second fetch
is ever issued. -/
def PhaseTwo (P : String) (s : Sys) : Prop :=
  s.fetchLog = [P] ∧ s.nextPid = 1 ∧
  ((s.settled = [] ∧ s.outstanding = [(0, P)] ∧ s.loader.modelCache = [] ∧
      s.loader.loadingPromises = [(P, 0)] ∧
      ∃ k pr0, s.procs.get? k = some pr0 ∧
        pr0.phase = Phase.awaitingOwn 0 ∧
        ∀ j pr, s.procs.get? j = some pr → j ≠ k →
          pr.phase = Phase.waitingOther 0) ∨
    (∃ g, s.settled = [(0, Outcome.ok g)] ∧ s.outstanding = [] ∧
      s.loader.modelCache = [(P, g)] ∧
      ((s.loader.loadingPromises = [(P, 0)] ∧
        ∃ k pr0, s.procs.get? k = some pr0 ∧
          pr0.phase = Phase.awaitingOwn 0 ∧
          ∀ j pr, s.procs.get? j = some pr → j ≠ k →
            pr.phase = Phase.waitingOther 0 ∨
              ∃ inst, pr.phase = Phase.finished inst) ∨
       (s.loader.loadingPromises = [] ∧
        ∀ j pr, s.procs.get? j = some pr →
          pr.phase = Phase.waitingOther 0 ∨
            ∃ inst, pr.phase = Phase.finished inst))) ∨
    (s.settled = [(0, Outcome.err)] ∧ s.outstanding = [] ∧
      s.loader.modelCache = [] ∧
      ((s.loader.loadingPromises = [(P, 0)] ∧
        ∃ k pr0, s.procs.get? k = some pr0 ∧
          pr0.phase = Phase.awaitingOwn 0 ∧
          ∀ j pr, s.procs.get? j = some pr → j ≠ k →
            pr.phase = Phase.waitingOther 0 ∨ pr.phase = Phase.failed) ∨
       (s.loader.loadingPromises = [] ∧
        ∀ j pr, s.procs.get? j = some pr →
          pr.phase = Phase.waitingOther 0 ∨ pr.phase = Phase.failed))))

theorem get?_some_lt {α : Type} {l : List α} {n : Nat} {a : α}
    (h : l.get? n = some a) : n < l.length := by
  induction l generalizing n with
  | nil => simp at h
  | cons x t ih =>
      cases n with
      | zero => simp
      | succ n2 =>
          simp only [List.length_cons]
          have := ih (n := n2) (by simpa using h)
          omega

theorem step_fire_noop (s : Sys) (pid : Nat) (o : Outcome)
    (h : alookup s.outstanding pid = none) :
    step s (Choice.fire pid o) = s := by
  rw [step]
  unfold fireStep
  rw [h]

theorem step_fire_ok (s : Sys) (pid : Nat) (g : Gltf) (path : String)
    (h : alookup s.outstanding pid = some path) :
    step s (Choice.fire pid (Outcome.ok g)) =
      { s with
        loader := { s.loader with modelCache := aset s.loader.modelCache path g }
        outstanding := aerase s.outstanding pid
        settled := (pid, Outcome.ok g) :: s.settled } := by
  rw [step]
  unfold fireStep
  rw [h]

theorem step_fire_err (s : Sys) (pid : Nat) (path : String)
    (h : alookup s.outstanding pid = some path) :
    step s (Choice.fire pid Outcome.err) =
      { s with
        outstanding := aerase s.outstanding pid
        settled := (pid, Outcome.err) :: s.settled } := by
  rw [step]
  unfold fireStep
  rw [h]

theorem step_runProc_noop (s : Sys) (i : Nat) (h : s.procs.get? i = none) :
    step s (Choice.runProc i) = s := by
  rw [step]
  rw [h]

theorem step_runProc_eq (s : Sys) (i : Nat) (p : Proc)
    (hget : s.procs.get? i = some p) :
    step s (Choice.runProc i) = runProcStep s i p := by
  rw [step, hget]

theorem step_start_hit (s : Sys) (i : Nat) (p : Proc) (g : Gltf)
    (hget : s.procs.get? i = some p) (hph : p.phase = Phase.start)
    (hlook : alookup s.loader.modelCache p.cfg.path = some g) :
    step s (Choice.runProc i) =
      { s with
        loader := (createInstance g p.cfg { s.loader with totalLoads := s.loader.totalLoads + 1, cacheHits := s.loader.cacheHits + 1 }).2
        procs := s.procs.set i { cfg := p.cfg, phase := Phase.finished (createInstance g p.cfg { s.loader with totalLoads := s.loader.totalLoads + 1, cacheHits := s.loader.cacheHits + 1 }).1 } } := by
  rw [step_runProc_eq s i p hget]
  unfold runProcStep
  rw [hph]
  simp only [hlook]

theorem step_start_pending (s : Sys) (i : Nat) (p : Proc) (pid2 : Nat)
    (hget : s.procs.get? i = some p) (hph : p.phase = Phase.start)
    (hlook : alookup s.loader.modelCache p.cfg.path = none)
    (hpend : alookup s.loader.loadingPromises p.cfg.path = some pid2) :
    step s (Choice.runProc i) =
      { s with
        loader := { s.loader with totalLoads := s.loader.totalLoads + 1 }
        procs := s.procs.set i { cfg := p.cfg, phase := Phase.waitingOther pid2 } } := by
  rw [step_runProc_eq s i p hget]
  unfold runProcStep
  rw [hph]
  simp only [hlook, hpend]

theorem step_start_miss (s : Sys) (i : Nat) (p : Proc)
    (hget : s.procs.get? i = some p) (hph : p.phase = Phase.start)
    (hlook : alookup s.loader.modelCache p.cfg.path = none)
    (hpend : alookup s.loader.loadingPromises p.cfg.path = none) :
    step s (Choice.runProc i) =
      { s with
        loader := { s.loader with totalLoads := s.loader.totalLoads + 1, loadingPromises := aset s.loader.loadingPromises p.cfg.path s.nextPid }
        procs := s.procs.set i { cfg := p.cfg, phase := Phase.awaitingOwn s.nextPid }
        outstanding := (s.nextPid, p.cfg.path) :: s.outstanding
        fetchLog := s.fetchLog ++ [p.cfg.path]
        nextPid := s.nextPid + 1 } := by
  rw [step_runProc_eq s i p hget]
  unfold runProcStep
  rw [hph]
  simp only [hlook, hpend]

theorem step_waiting_blocked (s : Sys) (i : Nat) (p : Proc) (pid : Nat)
    (hget : s.procs.get? i = some p) (hph : p.phase = Phase.waitingOther pid)
    (hset : alookup s.settled pid = none) :
    step s (Choice.runProc i) = s := by
  rw [step_runProc_eq s i p hget]
  unfold runProcStep
  rw [hph]
  simp only [hset]

theorem step_waiting_ok (s : Sys) (i : Nat) (p : Proc) (pid : Nat) (g : Gltf)
    (hget : s.procs.get? i = some p) (hph : p.phase = Phase.waitingOther pid)
    (hset : alookup s.settled pid = some (Outcome.ok g)) :
    step s (Choice.runProc i) =
      { s with
        loader := (createInstance g p.cfg s.loader).2
        procs := s.procs.set i { cfg := p.cfg, phase := Phase.finished (createInstance g p.cfg s.loader).1 } } := by
  rw [step_runProc_eq s i p hget]
  unfold runProcStep
  rw [hph]
  simp only [hset]

theorem step_waiting_err (s : Sys) (i : Nat) (p : Proc) (pid : Nat)
    (hget : s.procs.get? i = some p) (hph : p.phase = Phase.waitingOther pid)
    (hset : alookup s.settled pid = some Outcome.err) :
    step s (Choice.runProc i) =
      { s with procs := s.procs.set i { cfg := p.cfg, phase := Phase.failed } } := by
  rw [step_runProc_eq s i p hget]
  unfold runProcStep
  rw [hph]
  simp only [hset]

theorem step_own_blocked (s : Sys) (i : Nat) (p : Proc) (pid : Nat)
    (hget : s.procs.get? i = some p) (hph : p.phase = Phase.awaitingOwn pid)
    (hset : alookup s.settled pid = none) :
    step s (Choice.runProc i) = s := by
  rw [step_runProc_eq s i p hget]
  unfold runProcStep
  rw [hph]
  simp only [hset]

theorem step_own_ok (s : Sys) (i : Nat) (p : Proc) (pid : Nat) (g : Gltf)
    (hget : s.procs.get? i = some p) (hph : p.phase = Phase.awaitingOwn pid)
    (hset : alookup s.settled pid = some (Outcome.ok g)) :
    step s (Choice.runProc i) =
      { s with
        loader := (createInstance g p.cfg { s.loader with loadingPromises := aerase s.loader.loadingPromises p.cfg.path }).2
        procs := s.procs.set i { cfg := p.cfg, phase := Phase.finished (createInstance g p.cfg { s.loader with loadingPromises := aerase s.loader.loadingPromises p.cfg.path }).1 } } := by
  rw [step_runProc_eq s i p hget]
  unfold runProcStep
  rw [hph]
  simp only [hset]

theorem step_own_err (s : Sys) (i : Nat) (p : Proc) (pid : Nat)
    (hget : s.procs.get? i = some p) (hph : p.phase = Phase.awaitingOwn pid)
    (hset : alookup s.settled pid = some Outcome.err) :
    step s (Choice.runProc i) =
      { s with
        loader := { s.loader with loadingPromises := aerase s.loader.loadingPromises p.cfg.path }
        procs := s.procs.set i { cfg := p.cfg, phase := Phase.failed } } := by
  rw [step_runProc_eq s i p hget]
  unfold runProcStep
  rw [hph]
  simp only [hset]

theorem step_finished (s : Sys) (i : Nat) (p : Proc) (inst : Instance)
    (hget : s.procs.get? i = some p) (hph : p.phase = Phase.finished inst) :
    step s (Choice.runProc i) = s := by
  rw [step_runProc_eq s i p hget]
  unfold runProcStep
  rw [hph]

theorem step_failed (s : Sys) (i : Nat) (p : Proc)
    (hget : s.procs.get? i = some p) (hph : p.phase = Phase.failed) :
    step s (Choice.runProc i) = s := by
  rw [step_runProc_eq s i p hget]
  unfold runProcStep
  rw [hph]

theorem allPath_set (P : String) (s : Sys) (hap : AllPath P s) (i : Nat)
    (p : Proc) (hget : s.procs.get? i = some p) (ph : Phase) :
    ∀ j pr, (s.procs.set i { cfg := p.cfg, phase := ph }).get? j = some pr →
      pr.cfg.path = P := by
  intro j pr hj
  by_cases hij : i = j
  · subst hij
    rw [get?_set_self _ _ _ (get?_some_lt hget)] at hj
    cases hj
    exact hap i p hget
  · rw [get?_set_ne _ _ _ _ hij] at hj
    exact hap j pr hj

theorem phase1_step (P : String) (s : Sys) (i : Nat)
    (hap : AllPath P s) (h1 : PhaseOne P s) :
    AllPath P (step s (Choice.runProc i)) ∧
    PhaseOne P (step s (Choice.runProc i)) := by
  rcases hget : s.procs.get? i with _ | p
  · rw [step_runProc_noop s i hget]
    exact ⟨hap, h1⟩
  · have hpath := hap i p hget
    rcases h1 with ⟨hc, hp, ho, hs, hf, hn, hall⟩ |
      ⟨hc, hp, ho, hs, hf, hn, k, pr0, hk, hk0, hoth⟩
    · have hph := hall i p hget
      have hlook : alookup s.loader.modelCache p.cfg.path = none := by
        rw [hc]
        rfl
      have hpend : alookup s.loader.loadingPromises p.cfg.path = none := by
        rw [hp]
        rfl
      rw [step_start_miss s i p hget hph hlook hpend]
      refine ⟨allPath_set P s hap i p hget _, Or.inr ⟨?_, ?_, ?_, ?_, ?_, ?_,
        i, ⟨p.cfg, Phase.awaitingOwn s.nextPid⟩, ?_, ?_, ?_⟩⟩
      · simpa using hc
      · show aset s.loader.loadingPromises p.cfg.path s.nextPid = [(P, 0)]
        rw [hp, hpath, hn]
        rfl
      · show (s.nextPid, p.cfg.path) :: s.outstanding = [(0, P)]
        rw [hn, hpath, ho]
      · simpa using hs
      · show s.fetchLog ++ [p.cfg.path] = [P]
        rw [hf, hpath]
        rfl
      · show s.nextPid + 1 = 1
        rw [hn]
      · exact get?_set_self _ _ _ (get?_some_lt hget)
      · show Phase.awaitingOwn s.nextPid = Phase.awaitingOwn 0
        rw [hn]
      · intro j pr hj hji
        rw [get?_set_ne _ _ _ _ (fun h => hji h.symm)] at hj
        exact Or.inl (hall j pr hj)
    · by_cases hik : i = k
      · subst hik
        rw [hget] at hk
        cases hk
        have hset : alookup s.settled 0 = none := by
          rw [hs]
          rfl
        rw [step_own_blocked s i p 0 hget hk0 hset]
        exact ⟨hap, Or.inr ⟨hc, hp, ho, hs, hf, hn, i, p, hget, hk0, hoth⟩⟩
      · rcases hoth i p hget hik with hph | hph
        · have hlook : alookup s.loader.modelCache p.cfg.path = none := by
            rw [hc]
            rfl
          have hpend : alookup s.loader.loadingPromises p.cfg.path = some 0 := by
            rw [hp, hpath]
            simp [alookup]
          rw [step_start_pending s i p 0 hget hph hlook hpend]
          refine ⟨allPath_set P s hap i p hget _, Or.inr ⟨by simpa using hc,
            by simpa using hp, ho, hs, hf, hn, k, pr0, ?_, hk0, ?_⟩⟩
          · rw [get?_set_ne _ _ _ _ hik]
            exact hk
          · intro j pr hj hji
            by_cases hij2 : i = j
            · subst hij2
              rw [get?_set_self _ _ _ (get?_some_lt hget)] at hj
              cases hj
              exact Or.inr rfl
            · rw [get?_set_ne _ _ _ _ hij2] at hj
              exact hoth j pr hj hji
        · have hset : alookup s.settled 0 = none := by
            rw [hs]
            rfl
          rw [step_waiting_blocked s i p 0 hget hph hset]
          exact ⟨hap, Or.inr ⟨hc, hp, ho, hs, hf, hn, k, pr0, hk, hk0, hoth⟩⟩

theorem phase1_run (P : String) (cs : List Choice) :
    ∀ s : Sys, (∀ ch ∈ cs, ch.isFire = false) → AllPath P s → PhaseOne P s →
      AllPath P (run s cs) ∧ PhaseOne P (run s cs) := by
  induction cs with
  | nil => exact fun s _ hap h1 => ⟨hap, h1⟩
  | cons ch rest ih =>
      intro s hnf hap h1
      have hch := hnf ch (List.mem_cons_self ch rest)
      show AllPath P (run (step s ch) rest) ∧ PhaseOne P (run (step s ch) rest)
      cases ch with
      | fire pid o => simp [Choice.isFire] at hch
      | runProc i =>
          have h2 := phase1_step P s i hap h1
          exact ih (step s (Choice.runProc i))
            (fun c hc => hnf c (List.mem_cons_of_mem _ hc)) h2.1 h2.2

theorem phase2_step (P : String) (s : Sys) (ch : Choice)
    (hap : AllPath P s) (h2 : PhaseTwo P s) :
    AllPath P (step s ch) ∧ PhaseTwo P (step s ch) := by
  obtain ⟨hf, hn, hcore⟩ := h2
  cases ch with
  | fire pid o =>
      rcases hcore with ⟨hs, ho, hc, hp, k, pr0, hk, hk0, hoth⟩ |
        ⟨g, hs, ho, hc, hrest⟩ | ⟨hs, ho, hc, hrest⟩
      · by_cases hpid : pid = 0
        · subst hpid
          have holk : alookup s.outstanding 0 = some P := by
            rw [ho]
            simp [alookup]
          cases o with
          | ok g =>
              rw [step_fire_ok s 0 g P holk]
              refine ⟨hap, hf, hn, Or.inr (Or.inl ⟨g, ?_, ?_, ?_,
                Or.inl ⟨hp, k, pr0, hk, hk0,
                  fun j pr hj hji => Or.inl (hoth j pr hj hji)⟩⟩)⟩
              · show (0, Outcome.ok g) :: s.settled = [(0, Outcome.ok g)]
                rw [hs]
              · show aerase s.outstanding 0 = []
                rw [ho]
                simp [aerase]
              · show aset s.loader.modelCache P g = [(P, g)]
                rw [hc]
                rfl
          | err =>
              rw [step_fire_err s 0 P holk]
              refine ⟨hap, hf, hn, Or.inr (Or.inr ⟨?_, ?_, hc,
                Or.inl ⟨hp, k, pr0, hk, hk0,
                  fun j pr hj hji => Or.inl (hoth j pr hj hji)⟩⟩)⟩
              · show (0, Outcome.err) :: s.settled = [(0, Outcome.err)]
                rw [hs]
              · show aerase s.outstanding 0 = []
                rw [ho]
                simp [aerase]
        · have hnone : alookup s.outstanding pid = none := by
            rw [ho]
            simp [alookup, Ne.symm hpid]
          rw [step_fire_noop s pid o hnone]
          exact ⟨hap, hf, hn, Or.inl ⟨hs, ho, hc, hp, k, pr0, hk, hk0, hoth⟩⟩
      · have hnone : alookup s.outstanding pid = none := by
          rw [ho]
          rfl
        rw [step_fire_noop s pid o hnone]
        exact ⟨hap, hf, hn, Or.inr (Or.inl ⟨g, hs, ho, hc, hrest⟩)⟩
      · have hnone : alookup s.outstanding pid = none := by
          rw [ho]
          rfl
        rw [step_fire_noop s pid o hnone]
        exact ⟨hap, hf, hn, Or.inr (Or.inr ⟨hs, ho, hc, hrest⟩)⟩
  | runProc i =>
      rcases hget : s.procs.get? i with _ | p
      · rw [step_runProc_noop s i hget]
        exact ⟨hap, hf, hn, hcore⟩
      · have hpath := hap i p hget
        rcases hcore with ⟨hs, ho, hc, hp, k, pr0, hk, hk0, hoth⟩ |
          ⟨g, hs, ho, hc, hrest⟩ | ⟨hs, ho, hc, hrest⟩
        · -- not yet settled: every runnable process is blocked
          by_cases hik : i = k
          · subst hik
            rw [hget] at hk
            cases hk
            have hset : alookup s.settled 0 = none := by
              rw [hs]
              rfl
            rw [step_own_blocked s i p 0 hget hk0 hset]
            exact ⟨hap, hf, hn, Or.inl ⟨hs, ho, hc, hp, i, p, hget, hk0, hoth⟩⟩
          · have hph := hoth i p hget hik
            have hset : alookup s.settled 0 = none := by
              rw [hs]
              rfl
            rw [step_waiting_blocked s i p 0 hget hph hset]
            exact ⟨hap, hf, hn, Or.inl ⟨hs, ho, hc, hp, k, pr0, hk, hk0, hoth⟩⟩
        · -- fetch succeeded
          have hset : alookup s.settled 0 = some (Outcome.ok g) := by
            rw [hs]
            simp [alookup]
          rcases hrest with ⟨hp, k, pr0, hk, hk0, hoth⟩ | ⟨hp, hallp⟩
          · by_cases hik : i = k
            · subst hik
              rw [hget] at hk
              cases hk
              rw [step_own_ok s i p 0 g hget hk0 hset]
              refine ⟨allPath_set P s hap i p hget _, hf, hn,
                Or.inr (Or.inl ⟨g, hs, ho, ?_, Or.inr ⟨?_, ?_⟩⟩)⟩
              · show s.loader.modelCache = [(P, g)]
                exact hc
              · show aerase s.loader.loadingPromises p.cfg.path = []
                rw [hp, hpath]
                simp [aerase]
              · intro j pr hj
                by_cases hij : i = j
                · subst hij
                  rw [get?_set_self _ _ _ (get?_some_lt hget)] at hj
                  cases hj
                  exact Or.inr ⟨_, rfl⟩
                · rw [get?_set_ne _ _ _ _ hij] at hj
                  exact hoth j pr hj (fun h => hij h.symm)
            · rcases hoth i p hget hik with hph | ⟨inst, hph⟩
              · rw [step_waiting_ok s i p 0 g hget hph hset]
                refine ⟨allPath_set P s hap i p hget _, hf, hn,
                  Or.inr (Or.inl ⟨g, hs, ho, hc, Or.inl ⟨hp, k, pr0, ?_, hk0,
                    ?_⟩⟩)⟩
                · rw [get?_set_ne _ _ _ _ hik]
                  exact hk
                · intro j pr hj hji
                  by_cases hij : i = j
                  · subst hij
                    rw [get?_set_self _ _ _ (get?_some_lt hget)] at hj
                    cases hj
                    exact Or.inr ⟨_, rfl⟩
                  · rw [get?_set_ne _ _ _ _ hij] at hj
                    exact hoth j pr hj hji
              · rw [step_finished s i p inst hget hph]
                exact ⟨hap, hf, hn, Or.inr (Or.inl ⟨g, hs, ho, hc,
                  Or.inl ⟨hp, k, pr0, hk, hk0, hoth⟩⟩)⟩
          · rcases hallp i p hget with hph | ⟨inst, hph⟩
            · rw [step_waiting_ok s i p 0 g hget hph hset]
              refine ⟨allPath_set P s hap i p hget _, hf, hn,
                Or.inr (Or.inl ⟨g, hs, ho, hc, Or.inr ⟨hp, ?_⟩⟩)⟩
              intro j pr hj
              by_cases hij : i = j
              · subst hij
                rw [get?_set_self _ _ _ (get?_some_lt hget)] at hj
                cases hj
                exact Or.inr ⟨_, rfl⟩
              · rw [get?_set_ne _ _ _ _ hij] at hj
                exact hallp j pr hj
            · rw [step_finished s i p inst hget hph]
              exact ⟨hap, hf, hn, Or.inr (Or.inl ⟨g, hs, ho, hc,
                Or.inr ⟨hp, hallp⟩⟩)⟩
        · -- fetch failed
          have hset : alookup s.settled 0 = some Outcome.err := by
            rw [hs]
            simp [alookup]
          rcases hrest with ⟨hp, k, pr0, hk, hk0, hoth⟩ | ⟨hp, hallp⟩
          · by_cases hik : i = k
            · subst hik
              rw [hget] at hk
              cases hk
              rw [step_own_err s i p 0 hget hk0 hset]
              refine ⟨allPath_set P s hap i p hget _, hf, hn,
                Or.inr (Or.inr ⟨hs, ho, hc, Or.inr ⟨?_, ?_⟩⟩)⟩
              · show aerase s.loader.loadingPromises p.cfg.path = []
                rw [hp, hpath]
                simp [aerase]
              · intro j pr hj
                by_cases hij : i = j
                · subst hij
                  rw [get?_set_self _ _ _ (get?_some_lt hget)] at hj
                  cases hj
                  exact Or.inr rfl
                · rw [get?_set_ne _ _ _ _ hij] at hj
                  exact hoth j pr hj (fun h => hij h.symm)
            · rcases hoth i p hget hik with hph | hph
              · rw [step_waiting_err s i p 0 hget hph hset]
                refine ⟨allPath_set P s hap i p hget _, hf, hn,
                  Or.inr (Or.inr ⟨hs, ho, hc, Or.inl ⟨hp, k, pr0, ?_, hk0,
                    ?_⟩⟩)⟩
                · rw [get?_set_ne _ _ _ _ hik]
                  exact hk
                · intro j pr hj hji
                  by_cases hij : i = j
                  · subst hij
                    rw [get?_set_self _ _ _ (get?_some_lt hget)] at hj
                    cases hj
                    exact Or.inr rfl
                  · rw [get?_set_ne _ _ _ _ hij] at hj
                    exact hoth j pr hj hji
              · rw [step_failed s i p hget hph]
                exact ⟨hap, hf, hn, Or.inr (Or.inr ⟨hs, ho, hc,
                  Or.inl ⟨hp, k, pr0, hk, hk0, hoth⟩⟩)⟩
          · rcases hallp i p hget with hph | hph
            · rw [step_waiting_err s i p 0 hget hph hset]
              refine ⟨allPath_set P s hap i p hget _, hf, hn,
                Or.inr (Or.inr ⟨hs, ho, hc, Or.inr ⟨hp, ?_⟩⟩)⟩
              intro j pr hj
              by_cases hij : i = j
              · subst hij
                rw [get?_set_self _ _ _ (get?_some_lt hget)] at hj
                cases hj
                exact Or.inr rfl
              · rw [get?_set_ne _ _ _ _ hij] at hj
                exact hallp j pr hj
            · rw [step_failed s i p hget hph]
              exact ⟨hap, hf, hn, Or.inr (Or.inr ⟨hs, ho, hc,
                Or.inr ⟨hp, hallp⟩⟩)⟩

theorem phase2_run (P : String) (cs : List Choice) :
    ∀ s : Sys, AllPath P s → PhaseTwo P s →
      AllPath P (run s cs) ∧ PhaseTwo P (run s cs) := by
  induction cs with
  | nil => exact fun s hap h2 => ⟨hap, h2⟩
  | cons ch rest ih =>
      intro s hap h2
      show AllPath P (run (step s ch) rest) ∧ PhaseTwo P (run (step s ch) rest)
      have h3 := phase2_step P s ch hap h2
      exact ih (step s ch) h3.1 h3.2

theorem step_procs_length (s : Sys) (ch : Choice) :
    (step s ch).procs.length = s.procs.length := by
  cases ch with
  | fire pid o =>
      rcases h : alookup s.outstanding pid with _ | path
      · rw [step_fire_noop s pid o h]
      · cases o with
        | ok g => rw [step_fire_ok s pid g path h]
        | err => rw [step_fire_err s pid path h]
  | runProc i =>
      rcases hget : s.procs.get? i with _ | p
      · rw [step_runProc_noop s i hget]
      · rcases hph : p.phase with _ | pid | pid | inst | _
        · rcases hlook : alookup s.loader.modelCache p.cfg.path with _ | g
          · rcases hpend : alookup s.loader.loadingPromises p.cfg.path
              with _ | pid2
            · rw [step_start_miss s i p hget hph hlook hpend]
              simp
            · rw [step_start_pending s i p pid2 hget hph hlook hpend]
              simp
          · rw [step_start_hit s i p g hget hph hlook]
            simp
        · rcases hset : alookup s.settled pid with _ | o
          · rw [step_waiting_blocked s i p pid hget hph hset]
          · cases o with
            | ok g =>
                rw [step_waiting_ok s i p pid g hget hph hset]
                simp
            | err =>
                rw [step_waiting_err s i p pid hget hph hset]
                simp
        · rcases hset : alookup s.settled pid with _ | o
          · rw [step_own_blocked s i p pid hget hph hset]
          · cases o with
            | ok g =>
                rw [step_own_ok s i p pid g hget hph hset]
                simp
            | err =>
                rw [step_own_err s i p pid hget hph hset]
                simp
        · rw [step_finished s i p inst hget hph]
        · rw [step_failed s i p hget hph]

theorem run_procs_length (cs : List Choice) :
    ∀ s : Sys, (run s cs).procs.length = s.procs.length := by
  induction cs with
  | nil => intro s; rfl
  | cons ch rest ih =>
      intro s
      show (run (step s ch) rest).procs.length = s.procs.length
      rw [ih (step s ch), step_procs_length]

theorem run_append (s : Sys) (cs1 cs2 : List Choice) :
    run s (cs1 ++ cs2) = run (run s cs1) cs2 :=
  List.foldl_append step s cs1 cs2

/-- C1: if `N ≥ 1` concurrent `loadModel` calls for the same path `P` all
run their synchronous prefixes before the network settles anything
(`cs1` contains no settle event and afterwards no call is still
unstarted), then exactly one underlying `loader.load` fetch is ever
issued for `P`; the PendingLoad entry is in the table at the end of that
same-turn prefix (it was inserted before the first suspension point, so
the concurrent callers observed it); and in any schedule that drains
every caller, either all `N` receive an instance, or the single fetch's
promise was rejected and all `N` receive that same failure. -/
theorem claim1_at_most_one_fetch (P : String) (cfgs : List ModelConfig)
    (cs1 cs2 : List Choice)
    (hpaths : ∀ c ∈ cfgs, c.path = P)
    (hne : cfgs ≠ [])
    (hnofire : ∀ ch ∈ cs1, ch.isFire = false)
    (hnostart : ∀ pr ∈ (run (initSys cfgs) cs1).procs,
      pr.phase.isStart = false)
    (hdone : ∀ pr ∈ (run (initSys cfgs) (cs1 ++ cs2)).procs,
      pr.phase.isTerminal = true) :
    alookup (run (initSys cfgs) cs1).loader.loadingPromises P = some 0 ∧
    (run (initSys cfgs) (cs1 ++ cs2)).fetchLog = [P] ∧
    ((∀ pr ∈ (run (initSys cfgs) (cs1 ++ cs2)).procs,
        ∃ inst, pr.phase = Phase.finished inst) ∨
      ((0, Outcome.err) ∈ (run (initSys cfgs) (cs1 ++ cs2)).settled ∧
        ∀ pr ∈ (run (initSys cfgs) (cs1 ++ cs2)).procs,
          pr.phase = Phase.failed)) := by
  have hap0 : AllPath P (initSys cfgs) := by
    intro j pr hj
    simp only [initSys, List.get?_map] at hj
    rcases hc : cfgs.get? j with _ | c
    · rw [hc] at hj
      cases hj
    · rw [hc] at hj
      cases hj
      exact hpaths c (List.get?_mem hc)
  have h10 : PhaseOne P (initSys cfgs) := by
    left
    refine ⟨rfl, rfl, rfl, rfl, rfl, rfl, ?_⟩
    intro j pr hj
    simp only [initSys, List.get?_map] at hj
    rcases hc : cfgs.get? j with _ | c
    · rw [hc] at hj
      cases hj
    · rw [hc] at hj
      cases hj
      rfl
  obtain ⟨hap1, h11⟩ := phase1_run P cs1 (initSys cfgs) hnofire hap0 h10
  have hlen1 : (run (initSys cfgs) cs1).procs.length = cfgs.length := by
    rw [run_procs_length]
    simp [initSys]
  have hpr0 : ∃ pr, (run (initSys cfgs) cs1).procs.get? 0 = some pr := by
    rcases hz : (run (initSys cfgs) cs1).procs.get? 0 with _ | pr
    · rw [List.get?_eq_none] at hz
      rw [hlen1] at hz
      exact absurd (List.length_pos.mpr hne) (by omega)
    · exact ⟨pr, rfl⟩
  rcases h11 with ⟨hc, hp, ho, hs, hf, hn, hall⟩ |
    ⟨hc, hp, ho, hs, hf, hn, k, pr0, hk, hk0, hoth⟩
  · obtain ⟨pr, hz⟩ := hpr0
    have := hall 0 pr hz
    have h2 := hnostart pr (List.get?_mem hz)
    rw [this] at h2
    simp [Phase.isStart] at h2
  · have h2state : PhaseTwo P (run (initSys cfgs) cs1) := by
      refine ⟨hf, hn, Or.inl ⟨hs, ho, hc, hp, k, pr0, hk, hk0, ?_⟩⟩
      intro j pr hj hji
      rcases hoth j pr hj hji with hst | hw
      · have h3 := hnostart pr (List.get?_mem hj)
        rw [hst] at h3
        simp [Phase.isStart] at h3
      · exact hw
    obtain ⟨hap2, hf2, hn2, hcore2⟩ :=
      phase2_run P cs2 (run (initSys cfgs) cs1) hap1 h2state
    rw [run_append] at hdone ⊢
    refine ⟨by rw [hp]; simp [alookup], hf2, ?_⟩
    rcases hcore2 with ⟨hs2, ho2, hc2, hp2, k2, pr2, hk2, hk20, hoth2⟩ |
      ⟨g, hs2, ho2, hc2, hrest2⟩ | ⟨hs2, ho2, hc2, hrest2⟩
    · have h3 := hdone pr2 (List.get?_mem hk2)
      rw [hk20] at h3
      simp [Phase.isTerminal] at h3
    · rcases hrest2 with ⟨hp2, k2, pr2, hk2, hk20, hoth2⟩ | ⟨hp2, hallp2⟩
      · have h3 := hdone pr2 (List.get?_mem hk2)
        rw [hk20] at h3
        simp [Phase.isTerminal] at h3
      · left
        intro pr hpr
        obtain ⟨j, hj⟩ := List.mem_iff_get?.mp hpr
        rcases hallp2 j pr hj with hw | hfin
        · have h3 := hdone pr hpr
          rw [hw] at h3
          simp [Phase.isTerminal] at h3
        · exact hfin
    · rcases hrest2 with ⟨hp2, k2, pr2, hk2, hk20, hoth2⟩ | ⟨hp2, hallp2⟩
      · have h3 := hdone pr2 (List.get?_mem hk2)
        rw [hk20] at h3
        simp [Phase.isTerminal] at h3
      · right
        refine ⟨by rw [hs2]; simp, ?_⟩
        intro pr hpr
        obtain ⟨j, hj⟩ := List.mem_iff_get?.mp hpr
        rcases hallp2 j pr hj with hw | hfl
        · have h3 := hdone pr hpr
          rw [hw] at h3
          simp [Phase.isTerminal] at h3
        · exact hfl

/-- Witness for C1 at a concrete input: two concurrent calls for
`a.glb` in one turn, then a successful settle and both resumptions. -/
theorem claim1_at_most_one_fetch_witness :
    (∀ c ∈ ([cfgX, cfgY] : List ModelConfig), c.path = "a.glb") ∧
    ([cfgX, cfgY] : List ModelConfig) ≠ [] ∧
    (∀ ch ∈ ([Choice.runProc 0, Choice.runProc 1] : List Choice),
      ch.isFire = false) ∧
    (∀ pr ∈ (run (initSys [cfgX, cfgY])
        [Choice.runProc 0, Choice.runProc 1]).procs,
      pr.phase.isStart = false) ∧
    (∀ pr ∈ (run (initSys [cfgX, cfgY])
        ([Choice.runProc 0, Choice.runProc 1] ++
          [Choice.fire 0 (Outcome.ok gA), Choice.runProc 0,
            Choice.runProc 1])).procs,
      pr.phase.isTerminal = true) ∧
    (alookup (run (initSys [cfgX, cfgY])
        [Choice.runProc 0, Choice.runProc 1]).loader.loadingPromises
        "a.glb" = some 0 ∧
      (run (initSys [cfgX, cfgY])
        ([Choice.runProc 0, Choice.runProc 1] ++
          [Choice.fire 0 (Outcome.ok gA), Choice.runProc 0,
            Choice.runProc 1])).fetchLog = ["a.glb"] ∧
      ((∀ pr ∈ (run (initSys [cfgX, cfgY])
          ([Choice.runProc 0, Choice.runProc 1] ++
            [Choice.fire 0 (Outcome.ok gA), Choice.runProc 0,
              Choice.runProc 1])).procs,
          ∃ inst, pr.phase = Phase.finished inst) ∨
        ((0, Outcome.err) ∈ (run (initSys [cfgX, cfgY])
            ([Choice.runProc 0, Choice.runProc 1] ++
              [Choice.fire 0 (Outcome.ok gA), Choice.runProc 0,
                Choice.runProc 1])).settled ∧
          ∀ pr ∈ (run (initSys [cfgX, cfgY])
            ([Choice.runProc 0, Choice.runProc 1] ++
              [Choice.fire 0 (Outcome.ok gA), Choice.runProc 0,
                Choice.runProc 1])).procs,
            pr.phase = Phase.failed))) :=
  ⟨by decide, by decide, by decide, by decide, by decide,
   claim1_at_most_one_fetch "a.glb" [cfgX, cfgY]
     [Choice.runProc 0, Choice.runProc 1]
     [Choice.fire 0 (Outcome.ok gA), Choice.runProc 0, Choice.runProc 1]
     (by decide) (by decide) (by decide) (by decide) (by decide)⟩

/-! ## C3: the per-path lifecycle invariant, amended

Over every reachable state (arbitrary configs, arbitrary schedule) each
path has at most one `modelCache` entry and at most one `loadingPromises`
entry; and whenever a path has both at once, the pending promise has
already settled successfully — i.e. the overlap is exactly the window
between the fetch's success callback (which stores the AssetRecord) and
the awaiting `loadModelFromDisk` continuation (which deletes the
PendingLoad).  The supporting fields tie outstanding fetches, settled
promises and owning callers together. -/

theorem mem_of_alookup_eq_some {κ α : Type} [DecidableEq κ]
    {l : List (κ × α)} {k : κ} {v : α} (h : alookup l k = some v) :
    (k, v) ∈ l := by
  induction l with
  | nil => simp [alookup] at h
  | cons e rest ih =>
      obtain ⟨k0, v0⟩ := e
      by_cases hk : k0 = k
      · subst hk
        simp only [alookup, if_pos rfl] at h
        cases h
        exact List.mem_cons_self _ _
      · simp only [alookup, if_neg hk] at h
        exact List.mem_cons_of_mem _ (ih h)

structure GInv (s : Sys) : Prop where
  cacheNodup : (keysOf s.loader.modelCache).Nodup
  pendNodup : (keysOf s.loader.loadingPromises).Nodup
  window : ∀ p pid, alookup s.loader.loadingPromises p = some pid →
    (alookup s.loader.modelCache p).isSome →
    ∃ g, (pid, Outcome.ok g) ∈ s.settled
  outPend : ∀ e ∈ s.outstanding,
    alookup s.loader.loadingPromises e.2 = some e.1 ∧
    ∀ o : Outcome, (e.1, o) ∉ s.settled
  outBound : ∀ e ∈ s.outstanding, e.1 < s.nextPid
  settledBound : ∀ e ∈ s.settled, e.1 < s.nextPid
  ownPend : ∀ j p pid, s.procs.get? j = some p →
    p.phase = Phase.awaitingOwn pid →
    pid < s.nextPid ∧ alookup s.loader.loadingPromises p.cfg.path = some pid
  ownUnique : ∀ i j pi pj pid, s.procs.get? i = some pi →
    s.procs.get? j = some pj → pi.phase = Phase.awaitingOwn pid →
    pj.phase = Phase.awaitingOwn pid → i = j

theorem ginv_init (cfgs : List ModelConfig) : GInv (initSys cfgs) := by
  refine ⟨List.nodup_nil, List.nodup_nil, ?_, ?_, ?_, ?_, ?_, ?_⟩
  · intro p pid h
    simp [initSys, initLoader, alookup] at h
  · intro e he
    simp [initSys] at he
  · intro e he
    simp [initSys] at he
  · intro e he
    simp [initSys] at he
  · intro j p pid hget hph
    exfalso
    simp only [initSys, List.get?_map] at hget
    rcases hc : cfgs.get? j with _ | c
    · rw [hc] at hget
      cases hget
    · rw [hc] at hget
      cases hget
      cases hph
  · intro i j pi pj pid hgi hgj hphi hphj
    exfalso
    simp only [initSys, List.get?_map] at hgi
    rcases hc : cfgs.get? i with _ | c
    · rw [hc] at hgi
      cases hgi
    · rw [hc] at hgi
      cases hgi
      cases hphi

theorem createInstance_modelCache (g : Gltf) (cfg : ModelConfig)
    (L : LoaderState) : (createInstance g cfg L).2.modelCache = L.modelCache :=
  rfl

theorem createInstance_loadingPromises (g : Gltf) (cfg : ModelConfig)
    (L : LoaderState) :
    (createInstance g cfg L).2.loadingPromises = L.loadingPromises :=
  rfl

/-- Replacing process `i`'s phase with a non-owning phase preserves the
owner bookkeeping (stated against the unchanged tables). -/
theorem ginv_set_helper (s : Sys) (i : Nat) (p : Proc) (ph : Phase)
    (hno : ∀ pid, ph ≠ Phase.awaitingOwn pid)
    (hown : ∀ j p2 pid, s.procs.get? j = some p2 →
      p2.phase = Phase.awaitingOwn pid →
      pid < s.nextPid ∧ alookup s.loader.loadingPromises p2.cfg.path = some pid)
    (huniq : ∀ i2 j pi pj pid, s.procs.get? i2 = some pi →
      s.procs.get? j = some pj → pi.phase = Phase.awaitingOwn pid →
      pj.phase = Phase.awaitingOwn pid → i2 = j) :
    (∀ j p2 pid, (s.procs.set i { cfg := p.cfg, phase := ph }).get? j =
        some p2 → p2.phase = Phase.awaitingOwn pid →
      pid < s.nextPid ∧
        alookup s.loader.loadingPromises p2.cfg.path = some pid) ∧
    (∀ i2 j pi pj pid,
      (s.procs.set i { cfg := p.cfg, phase := ph }).get? i2 = some pi →
      (s.procs.set i { cfg := p.cfg, phase := ph }).get? j = some pj →
      pi.phase = Phase.awaitingOwn pid → pj.phase = Phase.awaitingOwn pid →
      i2 = j) := by
  constructor
  · intro j p2 pid hj hph2
    by_cases hij : i = j
    · subst hij
      by_cases hb : i < s.procs.length
      · rw [get?_set_self _ _ _ hb] at hj
        cases hj
        exact absurd hph2 (hno pid)
      · rw [List.set_eq_of_length_le (by omega)] at hj
        exact hown i p2 pid hj hph2
    · rw [get?_set_ne _ _ _ _ hij] at hj
      exact hown j p2 pid hj hph2
  · intro i2 j pi pj pid hi2 hj hphi hphj
    by_cases hii : i = i2
    · subst hii
      by_cases hb : i < s.procs.length
      · rw [get?_set_self _ _ _ hb] at hi2
        cases hi2
        exact absurd hphi (hno pid)
      · rw [List.set_eq_of_length_le (by omega)] at hi2 hj
        exact huniq i j pi pj pid hi2 hj hphi hphj
    · rw [get?_set_ne _ _ _ _ hii] at hi2
      by_cases hij : i = j
      · subst hij
        by_cases hb : i < s.procs.length
        · rw [get?_set_self _ _ _ hb] at hj
          cases hj
          exact absurd hphj (hno pid)
        · rw [List.set_eq_of_length_le (by omega)] at hj
          exact huniq i2 i pi pj pid hi2 hj hphi hphj
      · rw [get?_set_ne _ _ _ _ hij] at hj
        exact huniq i2 j pi pj pid hi2 hj hphi hphj

theorem get?_set_cases {α : Type} {l : List α} {i j : Nat} {a b : α}
    (hlen : i < l.length) (h : (l.set i a).get? j = some b) :
    (i = j ∧ b = a) ∨ (i ≠ j ∧ l.get? j = some b) := by
  by_cases hij : i = j
  · subst hij
    rw [get?_set_self _ _ _ hlen] at h
    cases h
    exact Or.inl ⟨rfl, rfl⟩
  · rw [get?_set_ne _ _ _ _ hij] at h
    exact Or.inr ⟨hij, h⟩

/-- A resumption that only changes a process's phase (to a non-owning one)
and loader fields other than the two tables preserves the invariant. -/
theorem ginv_procs_loader (s : Sys) (h : GInv s) (i : Nat) (p : Proc)
    (ph : Phase) (L : LoaderState)
    (hno : ∀ pid, ph ≠ Phase.awaitingOwn pid)
    (hc : L.modelCache = s.loader.modelCache)
    (hp : L.loadingPromises = s.loader.loadingPromises) :
    GInv { s with
      loader := L
      procs := s.procs.set i { cfg := p.cfg, phase := ph } } := by
  refine ⟨?_, ?_, ?_, ?_, h.outBound, h.settledBound, ?_, ?_⟩
  · show (keysOf L.modelCache).Nodup
    rw [hc]
    exact h.cacheNodup
  · show (keysOf L.loadingPromises).Nodup
    rw [hp]
    exact h.pendNodup
  · intro q pid hpd hcs
    have hpd2 : alookup L.loadingPromises q = some pid := hpd
    have hcs2 : (alookup L.modelCache q).isSome := hcs
    rw [hp] at hpd2
    rw [hc] at hcs2
    exact h.window q pid hpd2 hcs2
  · intro e he
    have hdp := h.outPend e he
    refine ⟨?_, hdp.2⟩
    show alookup L.loadingPromises e.2 = some e.1
    rw [hp]
    exact hdp.1
  · intro j p2 pid hj hph2
    have hd := (ginv_set_helper s i p ph hno h.ownPend h.ownUnique).1
      j p2 pid hj hph2
    refine ⟨hd.1, ?_⟩
    show alookup L.loadingPromises p2.cfg.path = some pid
    rw [hp]
    exact hd.2
  · exact (ginv_set_helper s i p ph hno h.ownPend h.ownUnique).2

theorem ginv_step (s : Sys) (ch : Choice) (h : GInv s) : GInv (step s ch) := by
  cases ch with
  | fire pid o =>
      rcases ho : alookup s.outstanding pid with _ | path
      · rw [step_fire_noop s pid o ho]
        exact h
      · have hmem : (pid, path) ∈ s.outstanding := mem_of_alookup_eq_some ho
        have hdp := h.outPend (pid, path) hmem
        cases o with
        | ok g =>
            rw [step_fire_ok s pid g path ho]
            refine ⟨?_, h.pendNodup, ?_, ?_, ?_, ?_, h.ownPend, h.ownUnique⟩
            · show (keysOf (aset s.loader.modelCache path g)).Nodup
              exact nodup_keys_aset _ _ _ h.cacheNodup
            · intro q pid2 hpd hcs
              have hpd2 : alookup s.loader.loadingPromises q = some pid2 := hpd
              have hcs2 : (alookup (aset s.loader.modelCache path g) q).isSome :=
                hcs
              show ∃ g2, (pid2, Outcome.ok g2) ∈ (pid, Outcome.ok g) :: s.settled
              by_cases hq : q = path
              · subst hq
                rw [hdp.1] at hpd2
                cases hpd2
                exact ⟨g, List.mem_cons_self _ _⟩
              · rw [alookup_aset_ne s.loader.modelCache path q g hq] at hcs2
                obtain ⟨g2, hg2⟩ := h.window q pid2 hpd2 hcs2
                exact ⟨g2, List.mem_cons_of_mem _ hg2⟩
            · intro e he
              have he2 : e ∈ aerase s.outstanding pid := he
              rw [mem_aerase] at he2
              have hd2 := h.outPend e he2.1
              refine ⟨hd2.1, ?_⟩
              intro o2 ho2
              have ho3 : (e.1, o2) ∈ (pid, Outcome.ok g) :: s.settled := ho2
              rcases List.mem_cons.mp ho3 with h1 | h1
              · exact he2.2 (congrArg Prod.fst h1)
              · exact hd2.2 o2 h1
            · intro e he
              have he2 : e ∈ aerase s.outstanding pid := he
              rw [mem_aerase] at he2
              exact h.outBound e he2.1
            · intro e he
              have he2 : e ∈ (pid, Outcome.ok g) :: s.settled := he
              show e.1 < s.nextPid
              rcases List.mem_cons.mp he2 with h1 | h1
              · rw [h1]
                exact h.outBound (pid, path) hmem
              · exact h.settledBound e h1
        | err =>
            rw [step_fire_err s pid path ho]
            refine ⟨h.cacheNodup, h.pendNodup, ?_, ?_, ?_, ?_,
              h.ownPend, h.ownUnique⟩
            · intro q pid2 hpd hcs
              have hpd2 : alookup s.loader.loadingPromises q = some pid2 := hpd
              have hcs2 : (alookup s.loader.modelCache q).isSome := hcs
              obtain ⟨g2, hg2⟩ := h.window q pid2 hpd2 hcs2
              exact ⟨g2, List.mem_cons_of_mem _ hg2⟩
            · intro e he
              have he2 : e ∈ aerase s.outstanding pid := he
              rw [mem_aerase] at he2
              have hd2 := h.outPend e he2.1
              refine ⟨hd2.1, ?_⟩
              intro o2 ho2
              have ho3 : (e.1, o2) ∈ (pid, Outcome.err) :: s.settled := ho2
              rcases List.mem_cons.mp ho3 with h1 | h1
              · exact he2.2 (congrArg Prod.fst h1)
              · exact hd2.2 o2 h1
            · intro e he
              have he2 : e ∈ aerase s.outstanding pid := he
              rw [mem_aerase] at he2
              exact h.outBound e he2.1
            · intro e he
              have he2 : e ∈ (pid, Outcome.err) :: s.settled := he
              show e.1 < s.nextPid
              rcases List.mem_cons.mp he2 with h1 | h1
              · rw [h1]
                exact h.outBound (pid, path) hmem
              · exact h.settledBound e h1
  | runProc i =>
      rcases hget : s.procs.get? i with _ | p
      · rw [step_runProc_noop s i hget]
        exact h
      · cases hph : p.phase with
        | start =>
            rcases hlook : alookup s.loader.modelCache p.cfg.path with _ | g
            · rcases hpend : alookup s.loader.loadingPromises p.cfg.path
                with _ | pid2
              · rw [step_start_miss s i p hget hph hlook hpend]
                refine ⟨h.cacheNodup, ?_, ?_, ?_, ?_, ?_, ?_, ?_⟩
                · show (keysOf
                    (aset s.loader.loadingPromises p.cfg.path s.nextPid)).Nodup
                  exact nodup_keys_aset _ _ _ h.pendNodup
                · intro q pidq hpd hcs
                  have hpd2 : alookup
                      (aset s.loader.loadingPromises p.cfg.path s.nextPid) q =
                      some pidq := hpd
                  have hcs2 : (alookup s.loader.modelCache q).isSome := hcs
                  by_cases hq : q = p.cfg.path
                  · subst hq
                    rw [hlook] at hcs2
                    simp at hcs2
                  · rw [alookup_aset_ne s.loader.loadingPromises p.cfg.path q
                      s.nextPid hq] at hpd2
                    exact h.window q pidq hpd2 hcs2
                · intro e he
                  have he2 : e ∈ (s.nextPid, p.cfg.path) :: s.outstanding := he
                  rcases List.mem_cons.mp he2 with h1 | h1
                  · subst h1
                    constructor
                    · show alookup
                        (aset s.loader.loadingPromises p.cfg.path s.nextPid)
                        p.cfg.path = some s.nextPid
                      exact alookup_aset_self _ _ _
                    · intro o2 ho2
                      have ho3 : (s.nextPid, o2) ∈ s.settled := ho2
                      exact absurd (h.settledBound (s.nextPid, o2) ho3)
                        (lt_irrefl _)
                  · have hd2 := h.outPend e h1
                    have hne : e.2 ≠ p.cfg.path := by
                      intro hE
                      have h2 := hd2.1
                      rw [hE, hpend] at h2
                      cases h2
                    refine ⟨?_, hd2.2⟩
                    show alookup
                      (aset s.loader.loadingPromises p.cfg.path s.nextPid) e.2 =
                      some e.1
                    rw [alookup_aset_ne s.loader.loadingPromises p.cfg.path e.2
                      s.nextPid hne]
                    exact hd2.1
                · intro e he
                  have he2 : e ∈ (s.nextPid, p.cfg.path) :: s.outstanding := he
                  show e.1 < s.nextPid + 1
                  rcases List.mem_cons.mp he2 with h1 | h1
                  · rw [h1]
                    exact Nat.lt_succ_self _
                  · exact Nat.lt_succ_of_lt (h.outBound e h1)
                · intro e he
                  have he2 : e ∈ s.settled := he
                  show e.1 < s.nextPid + 1
                  exact Nat.lt_succ_of_lt (h.settledBound e he2)
                · intro j p2 pidq hj hph2
                  rcases get?_set_cases (get?_some_lt hget) hj
                    with ⟨hij, hpb⟩ | hjold
                  · subst hpb
                    have hph3 : Phase.awaitingOwn s.nextPid =
                        Phase.awaitingOwn pidq := hph2
                    cases hph3
                    refine ⟨Nat.lt_succ_self _, ?_⟩
                    show alookup
                      (aset s.loader.loadingPromises p.cfg.path s.nextPid)
                      p.cfg.path = some s.nextPid
                    exact alookup_aset_self _ _ _
                  · have hd := h.ownPend j p2 pidq hjold.2 hph2
                    have hne : p2.cfg.path ≠ p.cfg.path := by
                      intro hE
                      have h2 := hd.2
                      rw [hE, hpend] at h2
                      cases h2
                    refine ⟨Nat.lt_succ_of_lt hd.1, ?_⟩
                    show alookup
                      (aset s.loader.loadingPromises p.cfg.path s.nextPid)
                      p2.cfg.path = some pidq
                    rw [alookup_aset_ne s.loader.loadingPromises p.cfg.path
                      p2.cfg.path s.nextPid hne]
                    exact hd.2
                · intro i2 j pi pj pidq hi2 hj hphi hphj
                  rcases get?_set_cases (get?_some_lt hget) hi2
                    with ⟨hii, hpi⟩ | hiold
                  · rcases get?_set_cases (get?_some_lt hget) hj
                      with ⟨hij, hpj⟩ | hjold
                    · omega
                    · exfalso
                      subst hpi
                      have hph3 : Phase.awaitingOwn s.nextPid =
                          Phase.awaitingOwn pidq := hphi
                      cases hph3
                      have hd := h.ownPend j pj s.nextPid hjold.2 hphj
                      exact absurd hd.1 (lt_irrefl _)
                  · rcases get?_set_cases (get?_some_lt hget) hj
                      with ⟨hij, hpj⟩ | hjold
                    · exfalso
                      subst hpj
                      have hph3 : Phase.awaitingOwn s.nextPid =
                          Phase.awaitingOwn pidq := hphj
                      cases hph3
                      have hd := h.ownPend i2 pi s.nextPid hiold.2 hphi
                      exact absurd hd.1 (lt_irrefl _)
                    · exact h.ownUnique i2 j pi pj pidq hiold.2 hjold.2
                        hphi hphj
              · rw [step_start_pending s i p pid2 hget hph hlook hpend]
                exact ginv_procs_loader s h i p _ _
                  (fun q hc2 => Phase.noConfusion hc2) rfl rfl
            · rw [step_start_hit s i p g hget hph hlook]
              exact ginv_procs_loader s h i p _ _
                (fun q hc2 => Phase.noConfusion hc2) rfl rfl
        | waitingOther pid =>
            rcases hset : alookup s.settled pid with _ | o
            · rw [step_waiting_blocked s i p pid hget hph hset]
              exact h
            · cases o with
              | ok g =>
                  rw [step_waiting_ok s i p pid g hget hph hset]
                  exact ginv_procs_loader s h i p _ _
                    (fun q hc2 => Phase.noConfusion hc2) rfl rfl
              | err =>
                  rw [step_waiting_err s i p pid hget hph hset]
                  exact ginv_procs_loader s h i p _ s.loader
                    (fun q hc2 => Phase.noConfusion hc2) rfl rfl
        | awaitingOwn pid =>
            have hop := h.ownPend i p pid hget hph
            rcases hset : alookup s.settled pid with _ | o
            · rw [step_own_blocked s i p pid hget hph hset]
              exact h
            · cases o with
              | ok g =>
                  rw [step_own_ok s i p pid g hget hph hset]
                  have hsm : (pid, Outcome.ok g) ∈ s.settled :=
                    mem_of_alookup_eq_some hset
                  refine ⟨h.cacheNodup, ?_, ?_, ?_, h.outBound,
                    h.settledBound, ?_, ?_⟩
                  · show (keysOf
                      (aerase s.loader.loadingPromises p.cfg.path)).Nodup
                    exact nodup_keys_aerase _ _ h.pendNodup
                  · intro q pidq hpd hcs
                    have hpd2 : alookup
                        (aerase s.loader.loadingPromises p.cfg.path) q =
                        some pidq := hpd
                    have hcs2 : (alookup s.loader.modelCache q).isSome := hcs
                    by_cases hq : q = p.cfg.path
                    · subst hq
                      rw [alookup_aerase_self] at hpd2
                      cases hpd2
                    · rw [alookup_aerase_ne s.loader.loadingPromises p.cfg.path
                        q hq] at hpd2
                      exact h.window q pidq hpd2 hcs2
                  · intro e he
                    have he2 : e ∈ s.outstanding := he
                    have hd2 := h.outPend e he2
                    have hne : e.2 ≠ p.cfg.path := by
                      intro hE
                      have h2 := hd2.1
                      rw [hE, hop.2] at h2
                      have h3 : e.1 = pid := by
                        injection h2 with h4
                        exact h4.symm
                      exact hd2.2 (Outcome.ok g) (by rw [h3]; exact hsm)
                    refine ⟨?_, hd2.2⟩
                    show alookup (aerase s.loader.loadingPromises p.cfg.path)
                      e.2 = some e.1
                    rw [alookup_aerase_ne s.loader.loadingPromises p.cfg.path
                      e.2 hne]
                    exact hd2.1
                  · intro j p2 pidq hj hph2
                    rcases get?_set_cases (get?_some_lt hget) hj
                      with ⟨hij, hpb⟩ | hjold
                    · exfalso
                      subst hpb
                      exact Phase.noConfusion hph2
                    · have hd := h.ownPend j p2 pidq hjold.2 hph2
                      have hne : p2.cfg.path ≠ p.cfg.path := by
                        intro hE
                        have h2 := hd.2
                        rw [hE, hop.2] at h2
                        have h3 : pidq = pid := by
                          injection h2 with h4
                          exact h4.symm
                        subst h3
                        exact hjold.1
                          (h.ownUnique j i p2 p pidq hjold.2 hget hph2 hph).symm
                      refine ⟨hd.1, ?_⟩
                      show alookup (aerase s.loader.loadingPromises p.cfg.path)
                        p2.cfg.path = some pidq
                      rw [alookup_aerase_ne s.loader.loadingPromises p.cfg.path
                        p2.cfg.path hne]
                      exact hd.2
                  · intro i2 j pi pj pidq hi2 hj hphi hphj
                    rcases get?_set_cases (get?_some_lt hget) hi2
                      with ⟨hii, hpi⟩ | hiold
                    · exfalso
                      subst hpi
                      exact Phase.noConfusion hphi
                    · rcases get?_set_cases (get?_some_lt hget) hj
                        with ⟨hij, hpj⟩ | hjold
                      · exfalso
                        subst hpj
                        exact Phase.noConfusion hphj
                      · exact h.ownUnique i2 j pi pj pidq hiold.2 hjold.2
                          hphi hphj
              | err =>
                  rw [step_own_err s i p pid hget hph hset]
                  have hsm : (pid, Outcome.err) ∈ s.settled :=
                    mem_of_alookup_eq_some hset
                  refine ⟨h.cacheNodup, ?_, ?_, ?_, h.outBound,
                    h.settledBound, ?_, ?_⟩
                  · show (keysOf
                      (aerase s.loader.loadingPromises p.cfg.path)).Nodup
                    exact nodup_keys_aerase _ _ h.pendNodup
                  · intro q pidq hpd hcs
                    have hpd2 : alookup
                        (aerase s.loader.loadingPromises p.cfg.path) q =
                        some pidq := hpd
                    have hcs2 : (alookup s.loader.modelCache q).isSome := hcs
                    by_cases hq : q = p.cfg.path
                    · subst hq
                      rw [alookup_aerase_self] at hpd2
                      cases hpd2
                    · rw [alookup_aerase_ne s.loader.loadingPromises p.cfg.path
                        q hq] at hpd2
                      exact h.window q pidq hpd2 hcs2
                  · intro e he
                    have he2 : e ∈ s.outstanding := he
                    have hd2 := h.outPend e he2
                    have hne : e.2 ≠ p.cfg.path := by
                      intro hE
                      have h2 := hd2.1
                      rw [hE, hop.2] at h2
                      have h3 : e.1 = pid := by
                        injection h2 with h4
                        exact h4.symm
                      exact hd2.2 Outcome.err (by rw [h3]; exact hsm)
                    refine ⟨?_, hd2.2⟩
                    show alookup (aerase s.loader.loadingPromises p.cfg.path)
                      e.2 = some e.1
                    rw [alookup_aerase_ne s.loader.loadingPromises p.cfg.path
                      e.2 hne]
                    exact hd2.1
                  · intro j p2 pidq hj hph2
                    rcases get?_set_cases (get?_some_lt hget) hj
                      with ⟨hij, hpb⟩ | hjold
                    · exfalso
                      subst hpb
                      exact Phase.noConfusion hph2
                    · have hd := h.ownPend j p2 pidq hjold.2 hph2
                      have hne : p2.cfg.path ≠ p.cfg.path := by
                        intro hE
                        have h2 := hd.2
                        rw [hE, hop.2] at h2
                        have h3 : pidq = pid := by
                          injection h2 with h4
                          exact h4.symm
                        subst h3
                        exact hjold.1
                          (h.ownUnique j i p2 p pidq hjold.2 hget hph2 hph).symm
                      refine ⟨hd.1, ?_⟩
                      show alookup (aerase s.loader.loadingPromises p.cfg.path)
                        p2.cfg.path = some pidq
                      rw [alookup_aerase_ne s.loader.loadingPromises p.cfg.path
                        p2.cfg.path hne]
                      exact hd.2
                  · intro i2 j pi pj pidq hi2 hj hphi hphj
                    rcases get?_set_cases (get?_some_lt hget) hi2
                      with ⟨hii, hpi⟩ | hiold
                    · exfalso
                      subst hpi
                      exact Phase.noConfusion hphi
                    · rcases get?_set_cases (get?_some_lt hget) hj
                        with ⟨hij, hpj⟩ | hjold
                      · exfalso
                        subst hpj
                        exact Phase.noConfusion hphj
                      · exact h.ownUnique i2 j pi pj pidq hiold.2 hjold.2
                          hphi hphj
        | finished inst =>
            rw [step_finished s i p inst hget hph]
            exact h
        | failed =>
            rw [step_failed s i p hget hph]
            exact h

theorem ginv_run (cs : List Choice) :
    ∀ s : Sys, GInv s → GInv (run s cs) := by
  induction cs with
  | nil => exact fun s h => h
  | cons ch rest ih =>
      intro s h
      show GInv (run (step s ch) rest)
      exact ih (step s ch) (ginv_step s ch h)

/-- C3, amended.  The spec's per-path lifecycle invariant, corrected: in
every reachable state of the loader, each path has at most one entry in
`modelCache` and at most one entry in `loadingPromises` (the JS `Map`s keep
keys unique); the two are NOT mutually exclusive, but a path can hold both
simultaneously only transiently, after the fetch's success callback has
already stored the AssetRecord and resolved the promise (so the pending
promise has settled successfully) and before the awaiting
`loadModelFromDisk` continuation deletes the PendingLoad. -/
theorem claim3_per_path_lifecycle (cfgs : List ModelConfig)
    (cs : List Choice) :
    (keysOf (run (initSys cfgs) cs).loader.modelCache).Nodup ∧
    (keysOf (run (initSys cfgs) cs).loader.loadingPromises).Nodup ∧
    (∀ p pid,
      alookup (run (initSys cfgs) cs).loader.loadingPromises p = some pid →
      (alookup (run (initSys cfgs) cs).loader.modelCache p).isSome →
      ∃ g, (pid, Outcome.ok g) ∈ (run (initSys cfgs) cs).settled) := by
  have h := ginv_run cs (initSys cfgs) (ginv_init cfgs)
  exact ⟨h.cacheNodup, h.pendNodup, h.window⟩

/-- C3, witness: at the concrete both-tables state the amended invariant
yields that the pending promise (pid 0) has indeed already settled
successfully. -/
theorem claim3_per_path_lifecycle_witness :
    ∃ g, (0, Outcome.ok g) ∈ bothTablesState.settled :=
  (claim3_per_path_lifecycle [cfgX]
      [Choice.runProc 0, Choice.fire 0 (Outcome.ok gA)]).2.2
    "a.glb" 0 (by decide) (by decide)

end Fridge
